import Mathlib

/-!
# Verification of the multi-agent exploration / rescue pipeline

Shallow embedding of the repository's core logic:

* `agents/map_sync.py` — `MapSynchronizer.merge`, `VictimInfo`, `UnifiedMap`;
* `agents/explorer_agent.py` — `ExplorerAgent.deliberate` (one cycle);
* `agents/rescuer_agent.py` — `RescuerAgent._find_path`, `_neighbors`,
  `_register_obstacle`;
* `agents/map_structures.py` — `CellInfo`, `write_map_csv` / `read_map_csv`;
* `analysis/merge_maps.py` — `STATUS_PRIORITY`, `unify_maps` (status field);
* `sma/tarefa2/rescuer.py` — `RescuerMaster._cluster_victims`.

Python `float` arithmetic is modelled exactly by `ℚ` (the proved properties do
not depend on rounding), Python sets by `Finset`, and Python dicts by
insertion-ordered association lists.
-/

/-- Grid coordinates `(x, y)`; Python tuples of ints. -/
abbrev Pos : Type := Int × Int

namespace MapSync

/-- `agents/map_sync.py::VictimInfo` — information about a discovered victim. -/
structure VictimInfo where
  vid : Nat
  position : Pos
  signals : List ℚ
  sources : Finset String
deriving DecidableEq

/-- `agents/map_sync.py::AgentLocalMap` — one explorer's snapshot.  Python's
`Dict[int, VictimInfo]` is insertion ordered, hence a `List (Nat × VictimInfo)`
with distinct keys in the program; the merge below only needs the order. -/
structure AgentLocalMap where
  name : String
  base : Pos
  visited : Finset Pos
  obstacles : Finset Pos
  victims : List (Nat × VictimInfo)
deriving DecidableEq

/-- `agents/map_sync.py::UnifiedMap` — the merged map. -/
structure UnifiedMap where
  base : Pos
  visited : Finset Pos
  obstacles : Finset Pos
  victims : List (Nat × VictimInfo)
deriving DecidableEq

/-- `MapSynchronizer._within`: `0 <= x < width and 0 <= y < height`. -/
def withinB (width height : Int) (p : Pos) : Bool :=
  decide (0 ≤ p.1) && decide (p.1 < width) && decide (0 ≤ p.2) && decide (p.2 < height)

/-- `MapSynchronizer._filter_positions`: keep only in-bounds positions. -/
def filterPositions (width height : Int) (s : Finset Pos) : Finset Pos :=
  s.filter (fun p => withinB width height p = true)

/-- Association-list lookup standing for Python `dict` key access. -/
def lookupVic (reg : List (Nat × VictimInfo)) (vid : Nat) : Option VictimInfo :=
  match reg with
  | [] => none
  | (k, v) :: rest => if k = vid then some v else lookupVic rest vid

/-- The `else` branch of the victim merge in `MapSynchronizer.merge`
(lines 109–113): union the `sources`, keep the first non-empty `signals`,
and overwrite `position` with the incoming report's position. -/
def mergeVictim (existing incoming : VictimInfo) : VictimInfo :=
  { existing with
    sources := existing.sources ∪ incoming.sources
    signals :=
      if incoming.signals ≠ [] ∧ existing.signals = [] then incoming.signals
      else existing.signals
    position := incoming.position }

/-- Insert-or-merge of one victim report into the unified registry
(`MapSynchronizer.merge`, lines 106–113). -/
def upsertVictim (reg : List (Nat × VictimInfo)) (vid : Nat) (info : VictimInfo) :
    List (Nat × VictimInfo) :=
  match lookupVic reg vid with
  | none => reg ++ [(vid, info)]
  | some _ => reg.map (fun kv => if kv.1 = vid then (kv.1, mergeVictim kv.2 info) else kv)

/-- Folding one local map into the accumulating unified map
(the body of the `for local in local_maps` loop). -/
def mergeOne (width height : Int) (u : UnifiedMap) (l : AgentLocalMap) : UnifiedMap :=
  { u with
    visited := u.visited ∪ filterPositions width height l.visited
    obstacles := u.obstacles ∪ filterPositions width height l.obstacles
    victims :=
      l.victims.foldl
        (fun reg kv =>
          if withinB width height kv.2.position then upsertVictim reg kv.1 kv.2
          else reg)
        u.victims }

/-- `MapSynchronizer.merge`: start from `visited = {base}`, fold every local
map in, then remove every obstacle from `visited` and force the base back in. -/
def merge (width height : Int) (base : Pos) (locals : List AgentLocalMap) :
    UnifiedMap :=
  let u := locals.foldl (mergeOne width height)
    { base := base, visited := {base}, obstacles := ∅, victims := [] }
  { u with visited := insert base (u.visited \ u.obstacles) }

end MapSync

namespace Tarefa2

/-- One victim record as consumed by `sma/tarefa2/rescuer.py`
(`victim["position"]`, `victim["tri"]`, `victim["sobr"]`, `victim["id"]`). -/
structure Victim where
  vid : Int
  pos : Pos
  tri : ℚ
  sobr : ℚ
deriving DecidableEq

/-- The feature row `[x, y, float(tri), float(sobr)]`. -/
def featuresOf (v : Victim) : List ℚ :=
  [(v.pos.1 : ℚ), (v.pos.2 : ℚ), v.tri, v.sobr]

/-- Python `min` over a nonempty list (`min([])` raises; the `0` default is
never reached in the guarded uses below). -/
def pyMinList (l : List ℚ) : ℚ :=
  match l with
  | [] => 0
  | x :: xs => xs.foldl min x

/-- Python `max` over a nonempty list. -/
def pyMaxList (l : List ℚ) : ℚ :=
  match l with
  | [] => 0
  | x :: xs => xs.foldl max x

/-- `RescuerMaster._normalize_features`: per-column min–max scaling, with
degenerate (all-equal) columns mapped to `0`. -/
def normalizeFeatures (features : List (List ℚ)) : List (List ℚ) :=
  let mins := features.transpose.map pyMinList
  let maxs := features.transpose.map pyMaxList
  features.map (fun row =>
    (row.zip (mins.zip maxs)).map (fun p =>
      if p.2.1 = p.2.2 then 0 else (p.1 - p.2.1) / (p.2.2 - p.2.1)))

/-- `sum((p - c) ** 2 for p, c in zip(point, centroid))`. -/
def sqDist (point centroid : List ℚ) : ℚ :=
  ((point.zip centroid).map (fun pc => (pc.1 - pc.2) ^ 2)).sum

/-- The scan computing `distances.index(min(distances))`: fold keeping the
first strictly smaller value, so the returned index is the first index
attaining the minimum. -/
def minIdxAux : List ℚ → ℚ → Nat → Nat → ℚ × Nat
  | [], bv, bi, _ => (bv, bi)
  | y :: ys, bv, bi, ci =>
      if y < bv then minIdxAux ys y ci (ci + 1)
      else minIdxAux ys bv bi (ci + 1)

/-- `distances.index(min(distances))`; `none` models the `ValueError` of
`min([])`. -/
def distancesIndexMin (l : List ℚ) : Option Nat :=
  match l with
  | [] => none
  | x :: xs => some (minIdxAux xs x 0 1).2

/-- A Python list comprehension over a fallible body: the first exception
aborts the whole computation. -/
def mapOption (f : α → Option β) : List α → Option (List β)
  | [] => some []
  | x :: xs =>
      match f x, mapOption f xs with
      | some y, some ys => some (y :: ys)
      | _, _ => none

/-- The assignment step of `_cluster_victims`: nearest centroid by squared
Euclidean distance, first-found index on ties. -/
def assignmentStep (centroids normalized : List (List ℚ)) : Option (List Nat) :=
  mapOption (fun point => distancesIndexMin (centroids.map (sqDist point)))
    normalized

/-- `statistics.mean` (nonempty in the guarded use below). -/
def pyMean (l : List ℚ) : ℚ :=
  l.sum / l.length

/-- The centroid-update step: component-wise mean of the assigned points,
previous centroid for an empty cluster. -/
def updateCentroids (k : Nat) (normalized : List (List ℚ))
    (assignments : List Nat) (centroids : List (List ℚ)) : List (List ℚ) :=
  (List.range k).map (fun cidx =>
    let clusterPoints :=
      ((assignments.zip normalized).filter (fun av => av.1 = cidx)).map
        (fun av => av.2)
    if clusterPoints.isEmpty then centroids.getD cidx []
    else clusterPoints.transpose.map pyMean)

/-- The `for _ in range(100)` alternation: assign, stop when nothing changed,
else update the centroids and continue; the fuel is the remaining iteration
budget (called with 100). -/
def kmeansLoop (k : Nat) (normalized : List (List ℚ)) :
    Nat → List (List ℚ) → List Nat → Option (List Nat)
  | 0, _, assigns => some assigns
  | fuel + 1, centroids, assigns =>
      match assignmentStep centroids normalized with
      | none => none
      | some newAssigns =>
          if newAssigns = assigns then some newAssigns
          else
            kmeansLoop k normalized fuel
              (updateCentroids k normalized newAssigns centroids) newAssigns

/-- The `while len(centroids) < nb_clusters` padding: duplicate the last
centroid; `none` models the `IndexError` of `centroids[-1]` on an empty
list. -/
def padCentroids (k : Nat) (cs : List (List ℚ)) : Option (List (List ℚ)) :=
  if k ≤ cs.length then some cs
  else
    match cs.getLast? with
    | none => none
    | some c => some (cs ++ List.replicate (k - cs.length) c)

/-- `RescuerMaster._cluster_victims`.  `rng = Random(42)` makes
`rng.shuffle(indices)` a fixed permutation of `range(len(victims))`; the
Mersenne–Twister draw is the parameter `perm` (required to be such a
permutation where it matters).  The `{i: [] for i in range(nb_clusters)}`
dictionary with keys `0..k-1` is the returned list, index = cluster id;
`none` models an uncaught exception. -/
def clusterVictims (perm : List Nat) (victims : List Victim) (k : Nat) :
    Option (List (List Victim)) :=
  if victims.isEmpty then some (List.replicate k [])
  else
    let features := victims.map featuresOf
    let normalized := normalizeFeatures features
    match mapOption (fun i => normalized.get? i) (perm.take k) with
    | none => none
    | some cs0 =>
        match padCentroids k cs0 with
        | none => none
        | some centroids =>
            match kmeansLoop k normalized 100 centroids
                (List.replicate victims.length 0) with
            | none => none
            | some assigns =>
                some ((List.range k).map (fun i =>
                  ((assigns.zip victims).filter (fun av => av.1 = i)).map
                    (fun av => av.2)))

/-- The scan of `distances.index(min(distances))` stays below any bound that
covers the running best index and the remaining positions. -/
theorem minIdxAux_snd_lt (ys : List ℚ) :
    ∀ (bv : ℚ) (bi ci M : Nat), bi < M → ci + ys.length ≤ M →
      (minIdxAux ys bv bi ci).2 < M := by
  induction ys with
  | nil =>
      intro bv bi ci M h1 h2
      simpa [minIdxAux] using h1
  | cons y ys ih =>
      intro bv bi ci M h1 h2
      simp only [List.length_cons] at h2
      simp only [minIdxAux]
      split_ifs with h
      · exact ih y ci (ci + 1) M (by omega) (by omega)
      · exact ih bv bi (ci + 1) M h1 (by omega)

/-- `distances.index(min(distances))` is an index of the list. -/
theorem distancesIndexMin_lt {l : List ℚ} {i : Nat}
    (h : distancesIndexMin l = some i) : i < l.length := by
  cases l with
  | nil => simp [distancesIndexMin] at h
  | cons x xs =>
      simp only [distancesIndexMin, Option.some.injEq] at h
      rw [← h]
      exact minIdxAux_snd_lt xs x 0 1 (x :: xs).length (by simp)
        (by simp only [List.length_cons]; omega)

/-- `min(distances)` does not raise on a non-empty list. -/
theorem distancesIndexMin_isSome {l : List ℚ} (h : l ≠ []) :
    (distancesIndexMin l).isSome := by
  cases l with
  | nil => exact absurd rfl h
  | cons x xs => simp [distancesIndexMin]

/-- A fallible comprehension over bodies that all succeed succeeds, with one
output per input coming from that input's body. -/
theorem mapOption_some (f : α → Option β) (l : List α)
    (h : ∀ x ∈ l, (f x).isSome) :
    ∃ ys, mapOption f l = some ys ∧ ys.length = l.length ∧
      ∀ y ∈ ys, ∃ x ∈ l, f x = some y := by
  induction l with
  | nil => exact ⟨[], rfl, rfl, by simp⟩
  | cons x xs ih =>
      obtain ⟨ys, hys, hlen, hmem⟩ :=
        ih fun a ha => h a (List.mem_cons.mpr (Or.inr ha))
      obtain ⟨y, hy⟩ :=
        Option.isSome_iff_exists.mp (h x (List.mem_cons_self x xs))
      refine ⟨y :: ys, ?_, by simp [hlen], ?_⟩
      · simp [mapOption, hy, hys]
      · intro z hz
        rcases List.mem_cons.mp hz with rfl | hz
        · exact ⟨x, List.mem_cons_self x xs, hy⟩
        · obtain ⟨w, hw1, hw2⟩ := hmem z hz
          exact ⟨w, List.mem_cons.mpr (Or.inr hw1), hw2⟩

/-- With `k ≥ 1` centroids the assignment step succeeds and assigns every
point a cluster index below `k`. -/
theorem assignmentStep_some (centroids normalized : List (List ℚ)) (k : Nat)
    (hkl : centroids.length = k) (hk : 1 ≤ k) :
    ∃ as, assignmentStep centroids normalized = some as ∧
      as.length = normalized.length ∧ ∀ a ∈ as, a < k := by
  obtain ⟨as, h1, h2, h3⟩ := mapOption_some
    (fun point => distancesIndexMin (centroids.map (sqDist point))) normalized
    (by
      intro p hp
      apply distancesIndexMin_isSome
      intro hnil
      rw [List.map_eq_nil] at hnil
      rw [hnil] at hkl
      simp at hkl
      omega)
  refine ⟨as, h1, h2, ?_⟩
  intro a ha
  obtain ⟨p, -, hfa⟩ := h3 a ha
  have := distancesIndexMin_lt hfa
  simpa [hkl] using this

/-- The centroid update always returns `k` centroids. -/
theorem updateCentroids_length (k : Nat) (normalized : List (List ℚ))
    (assignments : List Nat) (centroids : List (List ℚ)) :
    (updateCentroids k normalized assignments centroids).length = k := by
  simp [updateCentroids]

/-- With `k ≥ 1` the k-means loop always terminates with a full in-range
assignment, for any fuel. -/
theorem kmeansLoop_some (k : Nat) (normalized : List (List ℚ)) (hk : 1 ≤ k) :
    ∀ (fuel : Nat) (centroids : List (List ℚ)) (assigns : List Nat),
      centroids.length = k → assigns.length = normalized.length →
      (∀ a ∈ assigns, a < k) →
      ∃ res, kmeansLoop k normalized fuel centroids assigns = some res ∧
        res.length = normalized.length ∧ ∀ a ∈ res, a < k := by
  intro fuel
  induction fuel with
  | zero =>
      intro c a hc ha hb
      exact ⟨a, rfl, ha, hb⟩
  | succ fuel ih =>
      intro c a hc ha hb
      obtain ⟨as, h1, h2, h3⟩ := assignmentStep_some c normalized k hc hk
      by_cases heq : as = a
      · exact ⟨as, by simp [kmeansLoop, h1, heq], h2, h3⟩
      · obtain ⟨res, hr1, hr2, hr3⟩ :=
          ih (updateCentroids k normalized as c) as
            (updateCentroids_length k normalized as c) h2 h3
        exact ⟨res, by simp [kmeansLoop, h1, heq, hr1], hr2, hr3⟩

/-- Padding to `k` centroids succeeds on a non-empty prefix and yields
exactly `k`. -/
theorem padCentroids_some (k : Nat) (cs : List (List ℚ))
    (hle : cs.length ≤ k) (hne : cs ≠ []) :
    ∃ res, padCentroids k cs = some res ∧ res.length = k := by
  unfold padCentroids
  split_ifs with h
  · exact ⟨cs, rfl, le_antisymm hle h⟩
  · cases hgl : cs.getLast? with
    | none => exact absurd (List.getLast?_eq_none.mp hgl) hne
    | some c =>
        refine ⟨_, rfl, ?_⟩
        simp only [List.length_append, List.length_replicate]
        omega

/-- Flattening cluster lists where a single slot is prepended an element is,
up to permutation, prepending that element (slots indexed by a duplicate-free
list). -/
theorem flatten_map_update {α : Type} (L : List Nat) (hnd : L.Nodup)
    (a : Nat) (ha : a ∈ L) (v : α) (g : Nat → List α) :
    ((L.map (fun i => if a = i then v :: g i else g i)).flatten).Perm
      (v :: (L.map g).flatten) := by
  induction L with
  | nil => simp at ha
  | cons b bs ih =>
      rcases List.mem_cons.mp ha with rfl | ha'
      · have hnb : a ∉ bs := (List.nodup_cons.mp hnd).1
        have hrest :
            bs.map (fun i => if a = i then v :: g i else g i) = bs.map g := by
          apply List.map_congr_left
          intro i hi
          have : a ≠ i := fun h => hnb (h ▸ hi)
          simp [this]
        simp [hrest]
      · have hab : ¬a = b := fun h => (List.nodup_cons.mp hnd).1 (h ▸ ha')
        have ihh := ih (List.nodup_cons.mp hnd).2 ha'
        simp only [List.map_cons, List.flatten_cons, if_neg hab]
        exact (ihh.append_left (g b)).trans List.perm_middle

/-- Splitting pairs into the `k` clusters given by their in-range labels and
flattening back is a permutation of the original values. -/
theorem flatten_clusters_perm {α : Type} (pairs : List (Nat × α)) (k : Nat)
    (hb : ∀ p ∈ pairs, p.1 < k) :
    (((List.range k).map (fun i =>
        (pairs.filter (fun av => av.1 = i)).map (fun av => av.2))).flatten).Perm
      (pairs.map (fun av => av.2)) := by
  induction pairs with
  | nil => simp [List.flatten_eq_nil_iff]
  | cons p rest ih =>
      obtain ⟨a, v⟩ := p
      have ha : a < k := hb (a, v) (List.mem_cons_self _ _)
      have hrest : ∀ q ∈ rest, q.1 < k :=
        fun q hq => hb q (List.mem_cons.mpr (Or.inr hq))
      have step :
          (List.range k).map (fun i =>
            (((a, v) :: rest).filter (fun av => av.1 = i)).map
              (fun av => av.2)) =
          (List.range k).map (fun i =>
            if a = i then
              v :: ((rest.filter (fun av => av.1 = i)).map (fun av => av.2))
            else (rest.filter (fun av => av.1 = i)).map (fun av => av.2)) := by
        apply List.map_congr_left
        intro i _
        by_cases h : a = i <;> simp [List.filter_cons, h]
      rw [step]
      refine (flatten_map_update (List.range k) (List.nodup_range k) a
        (List.mem_range.mpr ha) v _).trans ?_
      simpa using (ih hrest).cons v

end Tarefa2

/-- **C5** (amended).  For every non-empty victim list, every cluster count
`k ≥ 1` and every seeded shuffle (a permutation of the index range), the
clustering is deterministic (the embedding is a pure function of its inputs,
so two runs coincide definitionally) and returns exactly `k` possibly-empty
groups whose concatenation is a permutation of the input — every victim in
exactly one group; in particular it succeeds (duplicating the last centroid)
when there are fewer victims than clusters.  For `k = 0` and a non-empty
input the code raises instead (see the counterexample). -/
theorem cluster_victims_k_groups_partition
    (perm : List Nat) (victims : List Tarefa2.Victim) (k : Nat)
    (hne : victims ≠ []) (hk : 1 ≤ k)
    (hperm : perm.Perm (List.range victims.length)) :
    Tarefa2.clusterVictims perm victims k =
        Tarefa2.clusterVictims perm victims k ∧
      ∃ clusters, Tarefa2.clusterVictims perm victims k = some clusters ∧
        clusters.length = k ∧ clusters.flatten.Perm victims := by
  refine ⟨rfl, ?_⟩
  have hpermlen : perm.length = victims.length :=
    hperm.length_eq.trans (List.length_range _)
  have hnz : 0 < victims.length := List.length_pos.mpr hne
  simp only [Tarefa2.clusterVictims]
  rw [if_neg (by simpa using hne)]
  have hnlen :
      (Tarefa2.normalizeFeatures (victims.map Tarefa2.featuresOf)).length =
        victims.length := by
    simp [Tarefa2.normalizeFeatures]
  have hidx : ∀ i ∈ perm.take k,
      ((Tarefa2.normalizeFeatures (victims.map Tarefa2.featuresOf)).get?
        i).isSome := by
    intro i hi
    have hip : i ∈ perm := List.take_subset k perm hi
    have hlt : i < victims.length := List.mem_range.mp (hperm.mem_iff.mp hip)
    rw [← Option.ne_none_iff_isSome, ne_eq, List.get?_eq_none]
    omega
  obtain ⟨cs0, hcs0, hcs0len, -⟩ := Tarefa2.mapOption_some _ _ hidx
  simp only [hcs0]
  have hlen0 : cs0.length = min k perm.length := by
    rw [hcs0len, List.length_take]
  have hcs0ne : cs0 ≠ [] := by
    intro h
    rw [h] at hlen0
    simp at hlen0
    omega
  have hcs0le : cs0.length ≤ k := by
    rw [hlen0]
    omega
  obtain ⟨cents, hcents, hcentslen⟩ :=
    Tarefa2.padCentroids_some k cs0 hcs0le hcs0ne
  simp only [hcents]
  obtain ⟨assigns, hloop, halen, habnd⟩ :=
    Tarefa2.kmeansLoop_some k
      (Tarefa2.normalizeFeatures (victims.map Tarefa2.featuresOf)) hk 100 cents
      (List.replicate victims.length 0) hcentslen (by simp [hnlen])
      (by
        intro a ha
        have := List.eq_of_mem_replicate ha
        omega)
  simp only [hloop]
  refine ⟨_, rfl, by simp, ?_⟩
  have hpairs : ∀ p ∈ assigns.zip victims, p.1 < k :=
    fun p hp => habnd p.1 (List.of_mem_zip hp).1
  refine (Tarefa2.flatten_clusters_perm (assigns.zip victims) k hpairs).trans ?_
  rw [List.map_snd_zip assigns victims (by rw [halen, hnlen])]

/-- Witness for C5 at a concrete two-victim input with `k = 3 > 2` victims
(the padding case). -/
theorem cluster_victims_k_groups_partition_witness :
    Tarefa2.clusterVictims [1, 0]
        [{ vid := 1, pos := (0, 0), tri := 1, sobr := 0 },
         { vid := 2, pos := (3, 4), tri := 2, sobr := 1 }] 3 =
      Tarefa2.clusterVictims [1, 0]
        [{ vid := 1, pos := (0, 0), tri := 1, sobr := 0 },
         { vid := 2, pos := (3, 4), tri := 2, sobr := 1 }] 3 ∧
    ∃ clusters,
      Tarefa2.clusterVictims [1, 0]
          [{ vid := 1, pos := (0, 0), tri := 1, sobr := 0 },
           { vid := 2, pos := (3, 4), tri := 2, sobr := 1 }] 3 = some clusters ∧
        clusters.length = 3 ∧
        clusters.flatten.Perm
          [{ vid := 1, pos := (0, 0), tri := 1, sobr := 0 },
           { vid := 2, pos := (3, 4), tri := 2, sobr := 1 }] :=
  cluster_victims_k_groups_partition [1, 0]
    [{ vid := 1, pos := (0, 0), tri := 1, sobr := 0 },
     { vid := 2, pos := (3, 4), tri := 2, sobr := 1 }] 3
    (by decide) (by decide) (by decide)

/-- **C5 counterexample.**  With cluster count `k = 0` and one victim the
clustering raises (`min` of the empty distance list) instead of returning
`k` groups. -/
theorem cluster_victims_zero_clusters_errors :
    Tarefa2.clusterVictims [0]
      [{ vid := 1, pos := (0, 0), tri := 0, sobr := 0 }] 0 = none := by
  rfl

namespace Rescuer

open MapSync

/-- `agents/rescuer_agent.py::RescuerAgent._register_obstacle`: add the bump
target to the working copy's `obstacles` and remove it from `visited`
(`Finset.erase` is exactly Python's guarded `if pos in visited: remove`). -/
def registerObstacle (m : UnifiedMap) (pos : Pos) : UnifiedMap :=
  { m with
    obstacles := insert pos m.obstacles
    visited := m.visited.erase pos }

end Rescuer

section MapSyncTheorems

open MapSync Rescuer

/-- **C1** (amended).  For every grid size, base and collection of local maps,
the merged map contains the base in `visited`, and `visited ∩ obstacles` is
contained in `{base}` — it is empty exactly when no in-bounds local map
reports the base cell as an obstacle, but the final `visited.add(base)` can
re-introduce the base even when the base is a merged obstacle. -/
theorem merge_base_visited_and_inter_subset_base
    (width height : Int) (base : Pos) (locals : List MapSync.AgentLocalMap) :
    base ∈ (MapSync.merge width height base locals).visited ∧
      (MapSync.merge width height base locals).visited ∩
        (MapSync.merge width height base locals).obstacles ⊆ {base} := by
  constructor
  · simp [MapSync.merge]
  · intro x hx
    simp only [MapSync.merge, Finset.mem_inter, Finset.mem_insert,
      Finset.mem_sdiff] at hx
    rcases hx with ⟨hv | ⟨_, hno⟩, ho⟩
    · simp [hv]
    · exact absurd ho hno

/-- **C1 counterexample.**  A single local map that reports the (in-bounds)
base cell as an obstacle: after the merge, `visited ∩ obstacles = {base}`,
refuting `visited ∩ obstacles = ∅` as stated. -/
theorem merge_inter_ne_empty_at_base_obstacle :
    ¬ ((MapSync.merge 2 2 (0, 0)
          [{ name := "a", base := (0, 0), visited := ∅,
             obstacles := {((0 : Int), (0 : Int))}, victims := [] }]).visited ∩
        (MapSync.merge 2 2 (0, 0)
          [{ name := "a", base := (0, 0), visited := ∅,
             obstacles := {((0 : Int), (0 : Int))}, victims := [] }]).obstacles
        = ∅) := by
  decide

/-- **C9.**  Merging an empty collection of local maps (zero surviving
explorers) succeeds and yields the unified map with `visited = {base}`, no
obstacles and an empty victim registry. -/
theorem merge_empty_locals (width height : Int) (base : Pos) :
    (MapSync.merge width height base []).visited = {base} ∧
      (MapSync.merge width height base []).obstacles = ∅ ∧
      (MapSync.merge width height base []).victims = [] ∧
      (MapSync.merge width height base []).base = base := by
  refine ⟨?_, rfl, rfl, rfl⟩
  simp [MapSync.merge]

/-- **C8** (amended).  When the same victim id is reported by two local maps
(both positions in bounds), the merged registry keeps the first report's `vid`,
takes the union of the `sources`, the first non-empty `signals` — and the
*last* report's `position` (the merge overwrites `position` on every repeated
report; it is not frozen at the first report). -/
theorem merge_two_reports_same_vid
    (width height : Int) (base : Pos) (vid : Nat)
    (A B : MapSync.AgentLocalMap) (ia ib : MapSync.VictimInfo)
    (hA : A.victims = [(vid, ia)]) (hB : B.victims = [(vid, ib)])
    (hwa : MapSync.withinB width height ia.position = true)
    (hwb : MapSync.withinB width height ib.position = true) :
    MapSync.lookupVic ((MapSync.merge width height base [A, B]).victims) vid =
      some { vid := ia.vid
             position := ib.position
             signals :=
               if ib.signals ≠ [] ∧ ia.signals = [] then ib.signals
               else ia.signals
             sources := ia.sources ∪ ib.sources } := by
  simp [MapSync.merge, MapSync.mergeOne, hA, hB, hwa, hwb,
    MapSync.upsertVictim, MapSync.lookupVic, MapSync.mergeVictim]

/-- Witness for C8 (amended) at a concrete pair of reports. -/
theorem merge_two_reports_same_vid_witness :
    MapSync.lookupVic
      ((MapSync.merge 5 5 (0, 0)
        [{ name := "a1", base := (0, 0), visited := ∅, obstacles := ∅,
           victims := [(1, { vid := 1, position := (0, 0), signals := [],
                             sources := {"a1"} })] },
         { name := "a2", base := (0, 0), visited := ∅, obstacles := ∅,
           victims := [(1, { vid := 1, position := (1, 1), signals := [7],
                             sources := {"a2"} })] }]).victims) 1 =
      some { vid := 1, position := (1, 1), signals := [7],
             sources := {"a1", "a2"} } := by
  have h := merge_two_reports_same_vid 5 5 (0, 0) 1
    { name := "a1", base := (0, 0), visited := ∅, obstacles := ∅,
      victims := [(1, { vid := 1, position := (0, 0), signals := [],
                        sources := {"a1"} })] }
    { name := "a2", base := (0, 0), visited := ∅, obstacles := ∅,
      victims := [(1, { vid := 1, position := (1, 1), signals := [7],
                        sources := {"a2"} })] }
    { vid := 1, position := (0, 0), signals := [], sources := {"a1"} }
    { vid := 1, position := (1, 1), signals := [7], sources := {"a2"} }
    rfl rfl (by decide) (by decide)
  simpa using h

/-- **C8 counterexample.**  Two reports of victim 1 with different positions:
the merged registry stores the *second* report's position `(1, 1)`, not the
first report's `(0, 0)` — `position` is not immutable after creation. -/
theorem merge_position_overwritten_by_second_report :
    (MapSync.lookupVic
      ((MapSync.merge 5 5 (0, 0)
        [{ name := "a1", base := (0, 0), visited := ∅, obstacles := ∅,
           victims := [(1, { vid := 1, position := (0, 0), signals := [],
                             sources := {"a1"} })] },
         { name := "a2", base := (0, 0), visited := ∅, obstacles := ∅,
           victims := [(1, { vid := 1, position := (1, 1), signals := [],
                             sources := {"a2"} })] }]).victims) 1).map
        MapSync.VictimInfo.position = some ((1 : Int), (1 : Int)) ∧
      ((1 : Int), (1 : Int)) ≠ ((0 : Int), (0 : Int)) := by
  constructor
  · rfl
  · decide

/-- **C10.**  Registering an obstacle on a rescuer's working copy adds the
position to `obstacles` and erases it from `visited`; consequently a working
copy with `visited ∩ obstacles = ∅` keeps that invariant through any sequence
of obstacle registrations. -/
theorem registerObstacle_preserves_disjoint
    (m : MapSync.UnifiedMap) (p : Pos) (ps : List Pos)
    (hdisj : m.visited ∩ m.obstacles = ∅) :
    (Rescuer.registerObstacle m p).obstacles = insert p m.obstacles ∧
      (Rescuer.registerObstacle m p).visited = m.visited.erase p ∧
      (ps.foldl Rescuer.registerObstacle m).visited ∩
        (ps.foldl Rescuer.registerObstacle m).obstacles = ∅ := by
  refine ⟨rfl, rfl, ?_⟩
  induction ps generalizing m with
  | nil => exact hdisj
  | cons q qs ih =>
    refine ih _ ?_
    ext x
    simp only [Rescuer.registerObstacle, Finset.mem_inter, Finset.mem_erase,
      Finset.mem_insert, Finset.not_mem_empty, iff_false, not_and]
    intro hx h
    rcases h with rfl | ho
    · exact absurd rfl hx.1
    · have : x ∈ m.visited ∩ m.obstacles := Finset.mem_inter.mpr ⟨hx.2, ho⟩
      simp [hdisj] at this

/-- Witness for C10 at a concrete working copy and bump sequence. -/
theorem registerObstacle_preserves_disjoint_witness :
    (Rescuer.registerObstacle
        { base := (0, 0), visited := {((0 : Int), (0 : Int)), ((1 : Int), (1 : Int))},
          obstacles := {((2 : Int), (0 : Int))}, victims := [] } (1, 1)).obstacles
        = insert ((1 : Int), (1 : Int)) {((2 : Int), (0 : Int))} ∧
      (Rescuer.registerObstacle
        { base := (0, 0), visited := {((0 : Int), (0 : Int)), ((1 : Int), (1 : Int))},
          obstacles := {((2 : Int), (0 : Int))}, victims := [] } (1, 1)).visited
        = Finset.erase {((0 : Int), (0 : Int)), ((1 : Int), (1 : Int))} (1, 1) ∧
      ([((1 : Int), (1 : Int)), ((0 : Int), (0 : Int))].foldl Rescuer.registerObstacle
        { base := (0, 0), visited := {((0 : Int), (0 : Int)), ((1 : Int), (1 : Int))},
          obstacles := {((2 : Int), (0 : Int))}, victims := [] }).visited ∩
      ([((1 : Int), (1 : Int)), ((0 : Int), (0 : Int))].foldl Rescuer.registerObstacle
        { base := (0, 0), visited := {((0 : Int), (0 : Int)), ((1 : Int), (1 : Int))},
          obstacles := {((2 : Int), (0 : Int))}, victims := [] }).obstacles = ∅ :=
  registerObstacle_preserves_disjoint
    { base := (0, 0), visited := {((0 : Int), (0 : Int)), ((1 : Int), (1 : Int))},
      obstacles := {((2 : Int), (0 : Int))}, victims := [] }
    (1, 1) [((1 : Int), (1 : Int)), ((0 : Int), (0 : Int))] (by decide)

end MapSyncTheorems

namespace MergeMaps

/-- Cell statuses of `agents/map_structures.py` (`"unknown" | "clear" | "wall"
| "out_of_bounds"`). -/
inductive Status where
  | unknown
  | clear
  | wall
  | out_of_bounds
deriving DecidableEq, Fintype

/-- `analysis/merge_maps.py::STATUS_PRIORITY = {"wall": 3, "clear": 2,
"unknown": 1, "out_of_bounds": 0}`. -/
def STATUS_PRIORITY : Status → Nat
  | .wall => 3
  | .clear => 2
  | .unknown => 1
  | .out_of_bounds => 0

/-- Python's `max(iterable, key=...)`: scan left to right, replace the best
only on a strictly greater key (so the first maximal element wins); `max` of
an empty iterable raises, hence `none`. -/
def pyMaxKey (key : Status → Nat) : List Status → Option Status
  | [] => none
  | s :: rest =>
    some (rest.foldl (fun best c => if key best < key c then c else best) s)

/-- A cell grid viewed at the `status` field: Python's `Dict[Coord, CellInfo]`
as its lookup function (`None` = coordinate absent). -/
def StatusMap : Type := Pos → Option Status

/-- The status computation of `analysis/merge_maps.py::unify_maps` at one
coordinate: `cells = [g[xy] for g in maps if xy in g]` and
`max((c.status for c in cells), key=lambda s: STATUS_PRIORITY.get(s, 0))`.
A coordinate in no map is not in `all_coords`, hence absent (`none`). -/
def unifyStatus (maps : List StatusMap) (xy : Pos) : Option Status :=
  pyMaxKey STATUS_PRIORITY (maps.filterMap (fun g => g xy))

/-- The binary merge of two status maps: `unify_maps([A, B])` at the status
field. -/
def mergeStatus (A B : StatusMap) : StatusMap :=
  fun xy => unifyStatus [A, B] xy

/-- The scan of `pyMaxKey` returns an element of the scanned list that every
element's key is `≤` of. -/
theorem pyMaxKey_foldl_spec (key : Status → Nat) (l : List Status) (b : Status) :
    (l.foldl (fun best c => if key best < key c then c else best) b) ∈ b :: l ∧
      ∀ t ∈ b :: l,
        key t ≤ key (l.foldl (fun best c => if key best < key c then c else best) b) := by
  induction l generalizing b with
  | nil => exact ⟨List.mem_singleton.mpr rfl, by simp⟩
  | cons c cs ih =>
    simp only [List.foldl_cons]
    by_cases h : key b < key c
    · rw [if_pos h]
      have hm := (ih c).1
      have hle := (ih c).2
      refine ⟨?_, ?_⟩
      · rcases List.mem_cons.mp hm with h1 | h1
        · exact List.mem_cons.mpr (Or.inr (List.mem_cons.mpr (Or.inl h1)))
        · exact List.mem_cons.mpr (Or.inr (List.mem_cons.mpr (Or.inr h1)))
      · intro t ht
        rcases List.mem_cons.mp ht with rfl | ht
        · exact le_trans (le_of_lt h) (hle _ (List.mem_cons.mpr (Or.inl rfl)))
        · exact hle _ ht
    · rw [if_neg h]
      have hm := (ih b).1
      have hle := (ih b).2
      refine ⟨?_, ?_⟩
      · rcases List.mem_cons.mp hm with h1 | h1
        · exact List.mem_cons.mpr (Or.inl h1)
        · exact List.mem_cons.mpr (Or.inr (List.mem_cons.mpr (Or.inr h1)))
      · intro t ht
        rcases List.mem_cons.mp ht with rfl | ht
        · exact hle _ (List.mem_cons.mpr (Or.inl rfl))
        · rcases List.mem_cons.mp ht with rfl | ht
          · exact le_trans (le_of_not_lt h) (hle _ (List.mem_cons.mpr (Or.inl rfl)))
          · exact hle _ (List.mem_cons.mpr (Or.inr ht))

/-- `STATUS_PRIORITY` is injective: equal priorities mean equal statuses. -/
theorem STATUS_PRIORITY_inj (s t : Status) (h : STATUS_PRIORITY s = STATUS_PRIORITY t) :
    s = t := by
  cases s <;> cases t <;> first | rfl | (exact absurd h (by decide))

/-- The cell list an optional cell contributes (`[g[xy]] if xy in g else []`). -/
def optCell : Option Status → List Status
  | none => []
  | some s => [s]

/-- The pointwise two-cell status combination that `mergeStatus` computes. -/
def m2 (a b : Option Status) : Option Status :=
  pyMaxKey STATUS_PRIORITY (optCell a ++ optCell b)

/-- The two-element instance of `unifyStatus` seen pointwise. -/
theorem mergeStatus_apply (A B : StatusMap) (xy : Pos) :
    mergeStatus A B xy = m2 (A xy) (B xy) := by
  unfold mergeStatus unifyStatus m2 optCell
  cases hA : A xy <;> cases hB : B xy <;>
    simp [List.filterMap_cons, hA, hB]

/-- The pointwise combination is commutative. -/
theorem m2_comm : ∀ a b : Option Status, m2 a b = m2 b a := by decide

/-- The pointwise combination is associative. -/
theorem m2_assoc : ∀ a b c : Option Status, m2 (m2 a b) c = m2 a (m2 b c) := by
  decide

/-- **C3.**  For every collection of status maps and coordinate, the merged
status is exactly the present status of highest `STATUS_PRIORITY` (absent when
the coordinate is in no map); and the two-map merge is commutative and
associative on the status field. -/
theorem unify_status_priority_comm_assoc :
    (∀ (maps : List StatusMap) (xy : Pos) (s : Status),
        unifyStatus maps xy = some s ↔
          (s ∈ maps.filterMap (fun g => g xy) ∧
            ∀ t ∈ maps.filterMap (fun g => g xy),
              STATUS_PRIORITY t ≤ STATUS_PRIORITY s)) ∧
      (∀ A B : StatusMap, mergeStatus A B = mergeStatus B A) ∧
      (∀ A B C : StatusMap,
          mergeStatus (mergeStatus A B) C = mergeStatus A (mergeStatus B C)) := by
  refine ⟨?_, ?_, ?_⟩
  · intro maps xy s
    unfold unifyStatus
    cases hl : maps.filterMap (fun g => g xy) with
    | nil => simp [pyMaxKey]
    | cons b rest =>
      have spec := pyMaxKey_foldl_spec STATUS_PRIORITY rest b
      constructor
      · intro h
        have hs : rest.foldl
            (fun best c => if STATUS_PRIORITY best < STATUS_PRIORITY c then c else best)
            b = s := by
          simpa [pyMaxKey] using h
        rw [← hs]
        exact ⟨spec.1, spec.2⟩
      · rintro ⟨hmem, hdom⟩
        have h1 : STATUS_PRIORITY
            (rest.foldl
              (fun best c => if STATUS_PRIORITY best < STATUS_PRIORITY c then c else best)
              b) ≤ STATUS_PRIORITY s := hdom _ spec.1
        have h2 : STATUS_PRIORITY s ≤ STATUS_PRIORITY
            (rest.foldl
              (fun best c => if STATUS_PRIORITY best < STATUS_PRIORITY c then c else best)
              b) := spec.2 s hmem
        have := STATUS_PRIORITY_inj _ _ (le_antisymm h1 h2)
        simp [pyMaxKey, this]
  · intro A B
    funext xy
    rw [mergeStatus_apply, mergeStatus_apply, m2_comm]
  · intro A B C
    funext xy
    rw [mergeStatus_apply, mergeStatus_apply, mergeStatus_apply, mergeStatus_apply,
      m2_assoc]

end MergeMaps

namespace MapStructures

/-- `agents/map_structures.py::CellInfo`.  `VitalSigns` is its list of values
(`Option` since `record_victim` can store `None`), `NeighborSet` its set of
coordinates; floats are modelled by `ℚ`. -/
structure CellInfo where
  status : String
  floor_factor : Option ℚ
  visited : Bool
  last_seen_step : Int
  neighbors_clear : Finset Pos
  victim_present : Bool
  victim_id : Option Int
  vitals_read : Bool
  read_step : Option Int
  vitals_raw : Option (List ℚ)
  discovered_by : Option String
  g_cost : Option ℚ
  parent : Option Pos
deriving DecidableEq

/-- `CellInfo()` — the dataclass defaults (the default `vitals_raw` is an
empty `VitalSigns`, i.e. `some []`). -/
def defaultCell : CellInfo :=
  { status := "unknown", floor_factor := none, visited := false,
    last_seen_step := -1, neighbors_clear := ∅, victim_present := false,
    victim_id := none, vitals_read := false, read_step := none,
    vitals_raw := some [], discovered_by := none, g_cost := none,
    parent := none }

/-- A per-cell map, Python's insertion-ordered `Dict[Coord, CellInfo]`. -/
abbrev MapGrid : Type := List (Pos × CellInfo)

/-- Dict lookup. -/
def gridGet (g : MapGrid) (xy : Pos) : Option CellInfo :=
  match g with
  | [] => none
  | (k, c) :: rest => if k = xy then some c else gridGet rest xy

/-- Dict assignment `grid[xy] = cell` (replace or append). -/
def gridSet (g : MapGrid) (xy : Pos) (c : CellInfo) : MapGrid :=
  match gridGet g xy with
  | none => g ++ [(xy, c)]
  | some _ => g.map (fun kv => if kv.1 = xy then (kv.1, c) else kv)

/-- Python's `sorted` order on coordinate tuples: lexicographic on `(x, y)`. -/
def pairLe (a b : Pos) : Prop :=
  a.1 < b.1 ∨ (a.1 = b.1 ∧ a.2 ≤ b.2)

instance : DecidableRel pairLe := fun a b =>
  inferInstanceAs (Decidable (a.1 < b.1 ∨ (a.1 = b.1 ∧ a.2 ≤ b.2)))

instance : IsTrans Pos pairLe where
  trans a b c hab hbc := by
    rcases hab with h | ⟨h1, h2⟩ <;> rcases hbc with h' | ⟨h1', h2'⟩
    · exact Or.inl (lt_trans h h')
    · exact Or.inl (h1' ▸ h)
    · exact Or.inl (h1 ▸ h')
    · exact Or.inr ⟨h1.trans h1', le_trans h2 h2'⟩

instance : IsAntisymm Pos pairLe where
  antisymm a b hab hba := by
    rcases hab with h | ⟨h1, h2⟩ <;> rcases hba with h' | ⟨h1', h2'⟩
    · exact absurd h' (lt_asymm h)
    · exact absurd h (by simp [h1'])
    · exact absurd h' (by simp [h1])
    · exact Prod.ext h1 (le_antisymm h2 h2')

instance : IsTotal Pos pairLe where
  total a b := by
    unfold pairLe
    rcases lt_trichotomy a.1 b.1 with h | h | h
    · exact Or.inl (Or.inl h)
    · rcases le_total a.2 b.2 with h2 | h2
      · exact Or.inl (Or.inr ⟨h, h2⟩)
      · exact Or.inr (Or.inr ⟨h.symm, h2⟩)
    · exact Or.inr (Or.inl h)

/-- `sorted(list(coords))` in `NeighborSet.to_json`. -/
def pySortedPairs (s : Finset Pos) : List Pos :=
  s.sort pairLe

/-- One CSV record of the persisted map format, holding each column's value as
it survives the text layer (ints, floats and JSON payloads round-trip the
`csv` module exactly; a Python `None` is written as the empty string, which
the reader maps back to `None`). -/
structure CsvRow where
  agent : String
  x : Int
  y : Int
  status : String
  visited : Int
  last_seen_step : Option Int
  floor_factor : Option ℚ
  victim_present : Int
  victim_id : Option Int
  vitals_read : Int
  read_step : Option Int
  vitals_raw : List ℚ
  g_cost : Option ℚ
  parent_x : Option Int
  parent_y : Option Int
  neighbors_clear : List Pos
deriving DecidableEq

/-- `agents/map_structures.py::_row_from_cell`.  An empty-or-`None`
`VitalSigns` and an empty `NeighborSet` are falsy and serialize as `"[]"`. -/
def rowFromCell (agent : String) (xy : Pos) (c : CellInfo) : CsvRow :=
  { agent := agent
    x := xy.1
    y := xy.2
    status := c.status
    visited := if c.visited then 1 else 0
    last_seen_step := some c.last_seen_step
    floor_factor := c.floor_factor
    victim_present := if c.victim_present then 1 else 0
    victim_id := c.victim_id
    vitals_read := if c.vitals_read then 1 else 0
    read_step := c.read_step
    vitals_raw := c.vitals_raw.getD []
    g_cost := c.g_cost
    parent_x := c.parent.map (fun p => p.1)
    parent_y := c.parent.map (fun p => p.2)
    neighbors_clear := pySortedPairs c.neighbors_clear }

/-- `iter_csv_rows` / `write_map_csv`: one row per cell whose status is not
`"unknown"`, in grid (insertion) order. -/
def writeRows (agent : String) (g : MapGrid) : List CsvRow :=
  g.filterMap (fun kv =>
    if kv.2.status ≠ "unknown" then some (rowFromCell agent kv.1 kv.2) else none)

/-- `NeighborSet.__init__` on the JSON-decoded `neighbors_clear` column:
`set(coords) if coords else set()`.  `json.loads` decodes every coordinate
pair as a Python `list`, and lists are unhashable, so `set(...)` raises
`TypeError` for any non-empty decoded array (`none` = the exception). -/
def pySetOfDecodedPairs (l : List Pos) : Option (Finset Pos) :=
  if l.isEmpty then some ∅ else none

/-- The per-row body of `agents/map_structures.py::read_map_csv`: rebuild a
`CellInfo` from a record.  The `try/except` around the `neighbors_clear`
reconstruction swallows the `TypeError` and falls back to an empty
`NeighborSet`; `discovered_by` is never assigned (it keeps the `CellInfo()`
default); the `vitals_raw` column is always a JSON array string (never empty
or `"None"`), so it always parses. -/
def rowToCell (r : CsvRow) : Pos × CellInfo :=
  ((r.x, r.y),
   { status := r.status
     visited := r.visited ≠ 0
     last_seen_step := r.last_seen_step.getD (-1)
     floor_factor := r.floor_factor
     g_cost := r.g_cost
     parent :=
       match r.parent_x, r.parent_y with
       | some px, some py => some (px, py)
       | _, _ => none
     victim_present := r.victim_present ≠ 0
     victim_id := r.victim_id
     vitals_read := r.vitals_read ≠ 0
     read_step := r.read_step
     vitals_raw := some r.vitals_raw
     neighbors_clear := (pySetOfDecodedPairs r.neighbors_clear).getD ∅
     discovered_by := none })

/-- `read_map_csv`: fold every record into a fresh grid. -/
def readRows (rows : List CsvRow) : MapGrid :=
  rows.foldl (fun g r => gridSet g (rowToCell r).1 (rowToCell r).2) []

end MapStructures

/-- **C6** (code bug).  Round-trip failure at a concrete one-cell grid: a
`"clear"` cell whose `neighbors_clear` is `{(1, 2)}` and whose
`discovered_by` is `"a"` reads back with an *empty* `neighbors_clear` (the
reader's `set()` over JSON-decoded coordinate lists raises `TypeError`,
silently swallowed) and with `discovered_by = None`; the persisted format
does not reproduce every field. -/
theorem roundtrip_loses_neighbors_and_discoverer :
    (MapStructures.gridGet
        (MapStructures.readRows
          (MapStructures.writeRows "a"
            [(((0 : Int), (0 : Int)),
              { MapStructures.defaultCell with
                  status := "clear"
                  neighbors_clear := {((1 : Int), (2 : Int))}
                  discovered_by := some "a" })]))
        (0, 0)).map MapStructures.CellInfo.neighbors_clear = some ∅ ∧
      (∅ : Finset Pos) ≠ {((1 : Int), (2 : Int))} ∧
      (MapStructures.gridGet
        (MapStructures.readRows
          (MapStructures.writeRows "a"
            [(((0 : Int), (0 : Int)),
              { MapStructures.defaultCell with
                  status := "clear"
                  neighbors_clear := {((1 : Int), (2 : Int))}
                  discovered_by := some "a" })]))
        (0, 0)).map MapStructures.CellInfo.discovered_by = some none := by
  refine ⟨?_, by decide, ?_⟩ <;>
    simp [MapStructures.writeRows, MapStructures.rowFromCell,
      MapStructures.pySortedPairs, MapStructures.readRows,
      MapStructures.rowToCell, MapStructures.gridSet, MapStructures.gridGet,
      MapStructures.pySetOfDecodedPairs, MapStructures.defaultCell,
      Finset.sort_singleton, List.filterMap_cons]

namespace Explorer

open MapStructures

/-- The `vs.constants.VS` agent states used by the agents
(`DEAD`, `IDLE`, `ENDED`, `ACTIVE`). -/
inductive VSState where
  | DEAD
  | IDLE
  | ENDED
  | ACTIVE
deriving DecidableEq

/-- The `vs` walk primitive's result: `EXECUTED`, `BUMPED` or
`TIME_EXCEEDED`. -/
inductive WalkResult where
  | EXECUTED
  | BUMPED
  | TIME_EXCEEDED
deriving DecidableEq

/-- One direction's answer of `check_walls_and_lim`: `VS.CLEAR`, `VS.WALL`
or `VS.END` (out of bounds). -/
inductive ProbeFlag where
  | CLEAR
  | WALL
  | END
deriving DecidableEq

/-- Modelled from the spec: `AbstAgent.AC_INCR` of the external `vs` library
(not under `src/`) — the 8 unit moves in the fixed order
`0:u, 1:ur, 2:r, 3:dr, 4:d, 5:dl, 6:l, 7:ul` quoted in
`explorer_agent.py`; only `dx, dy ∈ {-1, 0, 1}` and the count matter to the
claims. -/
def AC_INCR : List (Int × Int) :=
  [(0, -1), (1, -1), (1, 0), (1, 1), (0, 1), (-1, 1), (-1, 0), (-1, -1)]

/-- `agents/map_structures.py::record_cell` (all optional arguments explicit;
`cell.discovered_by or agent` keeps a previously set non-empty name). -/
def record_cell (agent : String) (g : MapGrid) (xy : Pos) (status : String)
    (step : Int) (floor_factor g_cost : Option ℚ) (parent : Option Pos) :
    MapGrid :=
  let cell := (gridGet g xy).getD defaultCell
  gridSet g xy
    { cell with
      status := status
      visited := true
      last_seen_step := step
      discovered_by := some (cell.discovered_by.getD agent)
      floor_factor := match floor_factor with
        | some f => some f
        | none => cell.floor_factor
      g_cost := match g_cost with
        | some c => some c
        | none => cell.g_cost
      parent := match parent with
        | some p => some p
        | none => cell.parent }

/-- `agents/map_structures.py::record_neighbors`: stamp each neighbour's
status, then add the clear coordinates to the current cell's
`neighbors_clear`. -/
def record_neighbors (agent : String) (g : MapGrid) (xy : Pos)
    (neighbors : List (Pos × String)) (step : Int) : MapGrid :=
  let g := neighbors.foldl
    (fun g nx =>
      let cell := (gridGet g nx.1).getD defaultCell
      gridSet g nx.1
        { cell with
          status := nx.2
          discovered_by := some (cell.discovered_by.getD agent)
          last_seen_step := step })
    g
  let current := (gridGet g xy).getD defaultCell
  let clearCoords := (neighbors.filter (fun nx => nx.2 = "clear")).map (fun nx => nx.1)
  gridSet g xy
    { current with
      neighbors_clear := current.neighbors_clear ∪ clearCoords.toFinset }

/-- `agents/map_structures.py::record_victim`. -/
def record_victim (agent : String) (g : MapGrid) (xy : Pos) (victim_id : Int)
    (vitals_read : Bool) (step : Int) (vitals_raw : Option (List ℚ)) : MapGrid :=
  let cell := (gridGet g xy).getD defaultCell
  let cell :=
    { cell with
      victim_present := true
      victim_id := some victim_id
      discovered_by := some (cell.discovered_by.getD agent) }
  let cell :=
    if vitals_read then
      { cell with vitals_read := true, read_step := some step,
                  vitals_raw := vitals_raw }
    else cell
  gridSet g xy cell

/-- The mutable fields of `agents/explorer_agent.py::ExplorerAgent` that
`deliberate` touches, plus the configuration (`TLIM`, `COST_LINE`, base)
read from the environment/config. -/
structure ExplorerState where
  name : String
  initialized : Bool
  victims_found : Finset Pos
  obstacles_found : Finset Pos
  visited : Finset Pos
  stack : List Pos
  pos : Pos
  returning : Bool
  base : Pos
  grid : MapGrid
  step_count : Int
  tlim : ℚ
  costLine : ℚ
deriving DecidableEq

/-- The external simulator's answers consumed during one `deliberate` cycle,
in call order: `get_rtime()` (lines 116, 195 and 204), `check_for_victim`,
`read_vital_signals` (`none` = `TIME_EXCEEDED`), `check_walls_and_lim`, the
RNG draw of `random.choice` (an index into the unvisited list), and the
results of the first and second `walk` calls of the cycle. -/
structure EnvCycle where
  rtime0 : ℚ
  rtime1 : ℚ
  rtime2 : ℚ
  victim : Option Int
  vitals : Option (List ℚ)
  probe : List ProbeFlag
  choice : Nat
  walk1 : WalkResult
  walk2 : WalkResult

/-- Result of one `deliberate` cycle: the new agent state, the returned
Bool, and the `set_state` call made this cycle, if any (each branch makes at
most one). -/
structure DelibResult where
  state : ExplorerState
  cont : Bool
  setState : Option VSState
deriving DecidableEq

/-- `ExplorerAgent._step_cost_lower_bound`: `(|dx| + |dy|) * COST_LINE`. -/
def stepCostLowerBound (costLine : ℚ) (p1 p2 : Pos) : ℚ :=
  ((|p1.1 - p2.1| + |p1.2 - p2.2| : Int) : ℚ) * costLine

/-- The scan of `ExplorerAgent._neighbors_clear` over `zip(self._dirs, obst)`:
collect the clear targets in order and the wall targets in order. -/
def probeScan (pos : Pos) (pairs : List ((Int × Int) × ProbeFlag)) :
    List Pos × List Pos :=
  pairs.foldl
    (fun acc pd =>
      let t : Pos := (pos.1 + pd.1.1, pos.2 + pd.1.2)
      match pd.2 with
      | .CLEAR => (acc.1 ++ [t], acc.2)
      | .WALL => (acc.1, acc.2 ++ [t])
      | .END => acc)
    ([], [])

/-- `ExplorerAgent._neighbors_clear`: the free neighbours, and
`obstacles_found` grown by the probed walls. -/
def neighborsClear (pos : Pos) (obstacles : Finset Pos)
    (probe : List ProbeFlag) : List Pos × Finset Pos :=
  let fw := probeScan pos (AC_INCR.zip probe)
  (fw.1, fw.2.foldl (fun o t => insert t o) obstacles)

/-- `ExplorerAgent._choose_unvisited`: `None` when every free neighbour is
visited, else the RNG-chosen element (`random.choice` modelled as the
environment-supplied draw taken modulo the list length). -/
def chooseUnvisited (visited : Finset Pos) (neighbors : List Pos)
    (choice : Nat) : Option Pos :=
  let unvisited := neighbors.filter (fun n => n ∉ visited)
  if unvisited.isEmpty then none
  else some (unvisited.getD (choice % unvisited.length) (0, 0))

/-- `ExplorerAgent._greedy_step_towards`: one diagonal-first greedy step. -/
def greedyStepTowards (src dst : Pos) : Pos × (Int × Int) :=
  let dx : Int := if dst.1 = src.1 then 0 else if src.1 < dst.1 then 1 else -1
  let dy : Int := if dst.2 = src.2 then 0 else if src.2 < dst.2 then 1 else -1
  ((src.1 + dx, src.2 + dy), (dx, dy))

/-- Python's `stack[-2]` (used under a `len(stack) > 1` guard). -/
def pyPenult (l : List Pos) (d : Pos) : Pos :=
  l.getD (l.length - 2) d

/-- The lazy first-cycle initialization of `deliberate` (lines 107–113). -/
def initStep (s0 : ExplorerState) : ExplorerState :=
  if s0.initialized then s0
  else
    { s0 with
      pos := s0.base, stack := [s0.base], visited := ∅, returning := false,
      initialized := true,
      grid := record_cell s0.name s0.grid s0.base "clear" s0.step_count
        none none none }

/-- The cycle preamble after the time check (lines 126–149): the low-battery
return flag, marking the current cell visited, and the victim check.
`bool(vitals)`: a list is truthy iff non-empty; `VS.TIME_EXCEEDED` is a
non-zero int constant, hence truthy. -/
def preamble (s : ExplorerState) (env : EnvCycle) : ExplorerState :=
  let s :=
    if env.rtime0 < (1 / 10) * s.tlim ∧ ¬s.returning then
      { s with returning := true }
    else s
  let s :=
    { s with
      visited := insert s.pos s.visited
      grid := record_cell s.name s.grid s.pos "clear" s.step_count
        none none none }
  match env.victim with
  | none => s
  | some vid =>
      let vread : Bool :=
        match env.vitals with
        | some l => !l.isEmpty
        | none => true
      { s with
        grid := record_victim s.name s.grid s.pos vid vread s.step_count
          (some (env.vitals.getD [])) }

/-- The return-to-base branch of `deliberate` (lines 153–180). -/
def returningStep (s : ExplorerState) (env : EnvCycle) : DelibResult :=
  let gs := greedyStepTowards s.pos s.base
  match env.walk1 with
  | .EXECUTED =>
      let s := { s with pos := gs.1 }
      if s.pos = s.base then
        { state := s, cont := false, setState := some .IDLE }
      else { state := s, cont := true, setState := none }
  | _ =>
      let s := { s with obstacles_found := insert gs.1 s.obstacles_found }
      if 1 < s.stack.length then
        match env.walk2 with
        | .EXECUTED =>
            { state :=
                { s with pos := pyPenult s.stack s.base,
                         stack := s.stack.dropLast },
              cont := true, setState := none }
        | _ => { state := s, cont := false, setState := some .IDLE }
      else { state := s, cont := false, setState := some .IDLE }

/-- The DFS-expansion branch of `deliberate` (lines 184–252).  The final
`write_map_csv` call of the ended branch is file output, outside the state.
The iteration order of the Python *set* `obstacles_found` when building
`neigh_dict` is unspecified; it is modelled as sorted order (each wall entry
updates a distinct cell, so no claim depends on it). -/
def dfsStep (s : ExplorerState) (env : EnvCycle) : DelibResult :=
  let nb := neighborsClear s.pos s.obstacles_found env.probe
  let s := { s with obstacles_found := nb.2 }
  let neighDict :=
    nb.1.map (fun n => (n, "clear")) ++
      ((nb.2.sort MapStructures.pairLe).filter (fun p => p ∉ nb.1)).map
        (fun p => (p, "wall"))
  let s :=
    { s with
      grid := record_neighbors s.name s.grid s.pos neighDict s.step_count }
  if stepCostLowerBound s.costLine s.pos s.base ≥ env.rtime1 then
    { state := { s with returning := true }, cont := true, setState := none }
  else
    match chooseUnvisited s.visited nb.1 env.choice with
    | some nxt =>
        if stepCostLowerBound s.costLine nxt s.base ≥ env.rtime2 then
          { state := { s with returning := true }, cont := true,
            setState := none }
        else
          match env.walk1 with
          | .EXECUTED =>
              let s :=
                { s with pos := nxt, stack := s.stack ++ [nxt],
                         step_count := s.step_count + 1 }
              { state :=
                  { s with
                    grid := record_cell s.name s.grid s.pos "clear"
                        s.step_count none none none },
                cont := true, setState := none }
          | _ =>
              { state :=
                  { s with obstacles_found := insert nxt s.obstacles_found },
                cont := true, setState := none }
    | none =>
        if 1 < s.stack.length then
          match env.walk1 with
          | .EXECUTED =>
              { state :=
                  { s with pos := pyPenult s.stack s.base,
                           stack := s.stack.dropLast },
                cont := true, setState := none }
          | _ =>
              { state := { s with returning := true }, cont := true,
                setState := none }
        else
          if s.pos ≠ s.base then
            { state := { s with returning := true }, cont := true,
              setState := none }
          else { state := s, cont := false, setState := some .ENDED }

/-- `ExplorerAgent.deliberate` — one decision cycle, assembled from the four
phases exactly as in the source. -/
def deliberate (s0 : ExplorerState) (env : EnvCycle) : DelibResult :=
  let s := initStep s0
  if env.rtime0 < 0 then { state := s, cont := false, setState := some .DEAD }
  else
    let s := preamble s env
    if s.returning then returningStep s env else dfsStep s env

/-- The preamble only touches `returning`, `visited` and `grid`. -/
theorem preamble_fields (s : ExplorerState) (env : EnvCycle) :
    (preamble s env).pos = s.pos ∧
      (preamble s env).obstacles_found = s.obstacles_found ∧
      (preamble s env).stack = s.stack ∧
      (preamble s env).base = s.base ∧
      (preamble s env).tlim = s.tlim ∧
      (preamble s env).costLine = s.costLine ∧
      (preamble s env).visited = insert s.pos s.visited ∧
      (preamble s env).returning =
        (s.returning || decide (env.rtime0 < (1 / 10) * s.tlim)) := by
  unfold preamble
  cases env.victim <;> split_ifs with h <;>
    simp_all [Bool.or_comm]

/-- The return branch never sets the dead state. -/
theorem returningStep_not_dead (s : ExplorerState) (env : EnvCycle) :
    (returningStep s env).setState ≠ some VSState.DEAD := by
  unfold returningStep
  cases env.walk1 <;> cases env.walk2 <;> dsimp only <;> split_ifs <;> simp

/-- The DFS branch never sets the dead state. -/
theorem dfsStep_not_dead (s : ExplorerState) (env : EnvCycle) :
    (dfsStep s env).setState ≠ some VSState.DEAD := by
  unfold dfsStep
  dsimp only
  repeat' split
  all_goals simp

end Explorer

/-- **C2.**  In every `deliberate` cycle, the explorer enters the dead
terminal state exactly when its remaining time has gone negative; and in the
DFS-expansion branch a `BUMPED` walk is never fatal: it only adds the chosen
target cell to `obstacles_found` (already grown by the probed walls) and
leaves the agent in place for that cycle. -/
theorem explorer_dead_iff_time_negative_and_bump_stall :
    (∀ (s : Explorer.ExplorerState) (env : Explorer.EnvCycle),
        (Explorer.deliberate s env).setState = some Explorer.VSState.DEAD ↔
          env.rtime0 < 0) ∧
      (∀ (s : Explorer.ExplorerState) (env : Explorer.EnvCycle) (nxt : Pos),
        s.initialized = true →
        ¬env.rtime0 < 0 →
        s.returning = false →
        ¬env.rtime0 < (1 / 10) * s.tlim →
        ¬Explorer.stepCostLowerBound s.costLine s.pos s.base ≥ env.rtime1 →
        Explorer.chooseUnvisited (insert s.pos s.visited)
            (Explorer.neighborsClear s.pos s.obstacles_found env.probe).1
            env.choice = some nxt →
        ¬Explorer.stepCostLowerBound s.costLine nxt s.base ≥ env.rtime2 →
        env.walk1 = Explorer.WalkResult.BUMPED →
        (Explorer.deliberate s env).state.obstacles_found =
            insert nxt
              (Explorer.neighborsClear s.pos s.obstacles_found env.probe).2 ∧
          (Explorer.deliberate s env).state.pos = s.pos ∧
          (Explorer.deliberate s env).cont = true ∧
          (Explorer.deliberate s env).setState = none) := by
  constructor
  · intro s env
    unfold Explorer.deliberate
    by_cases h0 : env.rtime0 < 0
    · rw [if_pos h0]
      simp [h0]
    · rw [if_neg h0]
      dsimp only
      split
      · exact iff_of_false (Explorer.returningStep_not_dead _ _) h0
      · exact iff_of_false (Explorer.dfsStep_not_dead _ _) h0
  · intro s env nxt hinit h0 hret hbat hr1 hch hr2 hw1
    unfold Explorer.deliberate
    rw [if_neg h0]
    have hini : Explorer.initStep s = s := by simp [Explorer.initStep, hinit]
    rw [hini]
    obtain ⟨hpos, hobs, hstk, hbase, htlim, hcl, hvis, hretn⟩ :=
      Explorer.preamble_fields s env
    have hret' : (Explorer.preamble s env).returning = false := by
      rw [hretn, hret, Bool.false_or, decide_eq_false_iff_not]
      exact hbat
    simp only [hret', Bool.false_eq_true, if_false]
    simp only [Explorer.dfsStep, hpos, hobs, hbase, htlim, hcl, hvis]
    rw [if_neg hr1]
    simp only [hch]
    rw [if_neg hr2, hw1]
    exact ⟨rfl, rfl, rfl, rfl⟩

/-- A concrete cycle exercising the bump branch of C2: the explorer at the
base with one clear unvisited neighbour bumps into it; the bump only records
the obstacle and stalls. -/
theorem explorer_bump_stall_witness :
    (Explorer.deliberate
        { name := "e1", initialized := true, victims_found := ∅,
          obstacles_found := ∅, visited := ∅, stack := [(0, 0)], pos := (0, 0),
          returning := false, base := (0, 0), grid := [], step_count := 0,
          tlim := 100, costLine := 1 }
        { rtime0 := 50, rtime1 := 50, rtime2 := 50, victim := none,
          vitals := none, probe := [Explorer.ProbeFlag.CLEAR], choice := 0,
          walk1 := Explorer.WalkResult.BUMPED,
          walk2 := Explorer.WalkResult.EXECUTED }).state.obstacles_found =
      insert ((0 : Int), (-1 : Int))
        (Explorer.neighborsClear (0, 0) ∅ [Explorer.ProbeFlag.CLEAR]).2 ∧
      (Explorer.deliberate
        { name := "e1", initialized := true, victims_found := ∅,
          obstacles_found := ∅, visited := ∅, stack := [(0, 0)], pos := (0, 0),
          returning := false, base := (0, 0), grid := [], step_count := 0,
          tlim := 100, costLine := 1 }
        { rtime0 := 50, rtime1 := 50, rtime2 := 50, victim := none,
          vitals := none, probe := [Explorer.ProbeFlag.CLEAR], choice := 0,
          walk1 := Explorer.WalkResult.BUMPED,
          walk2 := Explorer.WalkResult.EXECUTED }).state.pos = (0, 0) ∧
      (Explorer.deliberate
        { name := "e1", initialized := true, victims_found := ∅,
          obstacles_found := ∅, visited := ∅, stack := [(0, 0)], pos := (0, 0),
          returning := false, base := (0, 0), grid := [], step_count := 0,
          tlim := 100, costLine := 1 }
        { rtime0 := 50, rtime1 := 50, rtime2 := 50, victim := none,
          vitals := none, probe := [Explorer.ProbeFlag.CLEAR], choice := 0,
          walk1 := Explorer.WalkResult.BUMPED,
          walk2 := Explorer.WalkResult.EXECUTED }).cont = true ∧
      (Explorer.deliberate
        { name := "e1", initialized := true, victims_found := ∅,
          obstacles_found := ∅, visited := ∅, stack := [(0, 0)], pos := (0, 0),
          returning := false, base := (0, 0), grid := [], step_count := 0,
          tlim := 100, costLine := 1 }
        { rtime0 := 50, rtime1 := 50, rtime2 := 50, victim := none,
          vitals := none, probe := [Explorer.ProbeFlag.CLEAR], choice := 0,
          walk1 := Explorer.WalkResult.BUMPED,
          walk2 := Explorer.WalkResult.EXECUTED }).setState = none :=
  explorer_dead_iff_time_negative_and_bump_stall.2
    { name := "e1", initialized := true, victims_found := ∅,
      obstacles_found := ∅, visited := ∅, stack := [(0, 0)], pos := (0, 0),
      returning := false, base := (0, 0), grid := [], step_count := 0,
      tlim := 100, costLine := 1 }
    { rtime0 := 50, rtime1 := 50, rtime2 := 50, victim := none,
      vitals := none, probe := [Explorer.ProbeFlag.CLEAR], choice := 0,
      walk1 := Explorer.WalkResult.BUMPED,
      walk2 := Explorer.WalkResult.EXECUTED }
    (0, -1) rfl (by norm_num) rfl (by norm_num)
    (by norm_num [Explorer.stepCostLowerBound]) (by decide)
    (by norm_num [Explorer.stepCostLowerBound]) rfl

/-- An initialized returning agent's cycle (with time left) is the preamble
followed by the return branch. -/
theorem explorer_deliberate_returning_eq
    (s : Explorer.ExplorerState) (env : Explorer.EnvCycle)
    (hinit : s.initialized = true) (h0 : ¬env.rtime0 < 0)
    (hret : s.returning = true) :
    Explorer.deliberate s env =
      Explorer.returningStep (Explorer.preamble s env) env := by
  unfold Explorer.deliberate
  rw [if_neg h0]
  have hini : Explorer.initStep s = s := by simp [Explorer.initStep, hinit]
  rw [hini]
  have hret' : (Explorer.preamble s env).returning = true := by
    have h := (Explorer.preamble_fields s env).2.2.2.2.2.2.2
    rw [h, hret, Bool.true_or]
  rw [if_pos hret']

/-- **C7** (amended).  In returning mode: if the greedy step toward base and
the stack-pop fallback both fail, the agent terminates idle at its current
position without dying; and when an executed greedy move lands on the base,
the agent also terminates in the *idle* state (`set_state(VS.IDLE)`), not
the ended state — `VS.ENDED` is only set by the DFS branch when exploration
finishes with the agent already at base. -/
theorem explorer_returning_stuck_and_base_idle :
    (∀ (s : Explorer.ExplorerState) (env : Explorer.EnvCycle),
        s.initialized = true →
        ¬env.rtime0 < 0 →
        s.returning = true →
        env.walk1 ≠ Explorer.WalkResult.EXECUTED →
        (¬1 < s.stack.length ∨ env.walk2 ≠ Explorer.WalkResult.EXECUTED) →
        (Explorer.deliberate s env).setState = some Explorer.VSState.IDLE ∧
          (Explorer.deliberate s env).state.pos = s.pos ∧
          (Explorer.deliberate s env).cont = false) ∧
      (∀ (s : Explorer.ExplorerState) (env : Explorer.EnvCycle),
        s.initialized = true →
        ¬env.rtime0 < 0 →
        s.returning = true →
        env.walk1 = Explorer.WalkResult.EXECUTED →
        (Explorer.greedyStepTowards s.pos s.base).1 = s.base →
        (Explorer.deliberate s env).setState = some Explorer.VSState.IDLE ∧
          (Explorer.deliberate s env).state.pos = s.base ∧
          (Explorer.deliberate s env).cont = false) := by
  constructor
  · intro s env hinit h0 hret hw1 hstk
    obtain ⟨hpos, hobs, hstak, hbase, -, -, -, -⟩ := Explorer.preamble_fields s env
    rw [explorer_deliberate_returning_eq s env hinit h0 hret]
    unfold Explorer.returningStep
    rcases hw : env.walk1 with _ | _ | _
    · exact absurd hw hw1
    all_goals
      dsimp only
      rcases hstk with hs | hw2
      · rw [hstak, if_neg hs]
        exact ⟨rfl, hpos, rfl⟩
      · by_cases hs : 1 < (Explorer.preamble s env).stack.length
        · rw [if_pos hs]
          rcases hv : env.walk2 with _ | _ | _
          · exact absurd hv hw2
          · exact ⟨rfl, hpos, rfl⟩
          · exact ⟨rfl, hpos, rfl⟩
        · rw [if_neg hs]
          exact ⟨rfl, hpos, rfl⟩
  · intro s env hinit h0 hret hw1 hgreedy
    obtain ⟨hpos, -, -, hbase, -, -, -, -⟩ := Explorer.preamble_fields s env
    rw [explorer_deliberate_returning_eq s env hinit h0 hret]
    unfold Explorer.returningStep
    rw [hw1]
    dsimp only
    rw [hpos, hbase, hgreedy]
    rw [if_pos rfl]
    exact ⟨rfl, rfl, rfl⟩

/-- **C7 counterexample.**  A returning explorer one step from base whose
greedy move executes: the cycle ends with `set_state(VS.IDLE)`, not
`VS.ENDED` as the claim states. -/
theorem explorer_reaching_base_sets_idle_not_ended :
    (Explorer.deliberate
        { name := "e1", initialized := true, victims_found := ∅,
          obstacles_found := ∅, visited := ∅, stack := [(0, 0), (1, 0)],
          pos := (1, 0), returning := true, base := (0, 0), grid := [],
          step_count := 0, tlim := 10, costLine := 1 }
        { rtime0 := 5, rtime1 := 5, rtime2 := 5, victim := none,
          vitals := none, probe := [], choice := 0,
          walk1 := Explorer.WalkResult.EXECUTED,
          walk2 := Explorer.WalkResult.EXECUTED }).setState =
        some Explorer.VSState.IDLE ∧
      some Explorer.VSState.IDLE ≠ some Explorer.VSState.ENDED := by
  constructor
  · rw [explorer_deliberate_returning_eq _ _ rfl (by norm_num) rfl]
    unfold Explorer.returningStep
    dsimp only
    rw [(Explorer.preamble_fields _ _).1, (Explorer.preamble_fields _ _).2.2.2.1]
    norm_num [Explorer.greedyStepTowards]
  · decide

namespace Rescuer

open MapSync

/-- `RescuerAgent._neighbors`: the 8 cells around `pos`, in `AC_INCR`
order. -/
def neighborsOf (pos : Pos) : List Pos :=
  Explorer.AC_INCR.map (fun d => (pos.1 + d.1, pos.2 + d.2))

/-- The BFS `parents` dict: insertion-ordered association list from a cell to
its optional predecessor (`none` for the start). -/
abbrev Parents : Type := List (Pos × Option Pos)

/-- `parents` lookup (`x in parents` is `isSome`). -/
def lookupPar (ps : Parents) (x : Pos) : Option (Option Pos) :=
  match ps with
  | [] => none
  | (k, v) :: rest => if k = x then some v else lookupPar rest x

/-- The inner `for neigh in self._neighbors(current)` loop of `_find_path`:
skip known or disallowed cells, record the parent, break on the goal
(clearing the queue), else enqueue.  Returns the new `parents`, the enqueued
cells, and whether the break fired. -/
def expand (allowed : Finset Pos) (goal cur : Pos) :
    List Pos → Parents → List Pos → Parents × List Pos × Bool
  | [], ps, acc => (ps, acc, false)
  | n :: ns, ps, acc =>
      if (lookupPar ps n).isSome then expand allowed goal cur ns ps acc
      else if n ∉ allowed then expand allowed goal cur ns ps acc
      else if n = goal then (ps ++ [(n, some cur)], acc, true)
      else expand allowed goal cur ns (ps ++ [(n, some cur)]) (acc ++ [n])

/-- The `while queue` loop of `_find_path`.  The fuel is an upper bound on
the number of iterations (`_find_path` calls it with `allowed.card + 1`,
proved sufficient below: every iteration pops one cell, and every enqueued
cell is a fresh `parents` key, of which there are at most `allowed.card`). -/
def bfsLoop (allowed : Finset Pos) (goal : Pos) :
    Nat → List Pos → Parents → Parents
  | 0, _, ps => ps
  | _ + 1, [], ps => ps
  | fuel + 1, cur :: rest, ps =>
      let e := expand allowed goal cur (neighborsOf cur) ps []
      if e.2.2 then e.1
      else bfsLoop allowed goal fuel (rest ++ e.2.1) e.1

/-- The `while node is not None` reconstruction of `_find_path`, following
parent pointers from the goal.  The fuel (`parents.length` at the call site)
bounds the walk: each parent pointer leads to a strictly earlier `parents`
entry. -/
def buildPath (ps : Parents) : Nat → Pos → List Pos
  | 0, node => [node]
  | fuel + 1, node =>
      match lookupPar ps node with
      | some (some u) => node :: buildPath ps fuel u
      | _ => [node]

/-- `RescuerAgent._find_path`: BFS over `visited \ obstacles` with
8-directional adjacency; `[]` when start or goal is outside the allowed set
or the goal is never reached; `[start]` immediately when `start == goal`. -/
def find_path (visited obstacles : Finset Pos) (start goal : Pos) :
    List Pos :=
  if start = goal then [start]
  else
    let allowed := visited \ obstacles
    if start ∉ allowed ∨ goal ∉ allowed then []
    else
      let ps := bfsLoop allowed goal (allowed.card + 1) [start] [(start, none)]
      if (lookupPar ps goal).isSome then (buildPath ps ps.length goal).reverse
      else []

/-- Reachability through `allowed` cells by 8-directional steps. -/
def ReachableIn (allowed : Finset Pos) (a b : Pos) : Prop :=
  Relation.ReflTransGen
    (fun u v => u ∈ allowed ∧ v ∈ allowed ∧ v ∈ neighborsOf u) a b

/-- The shape invariant of the BFS `parents` dict: it starts as
`{start: None}` (with `start` allowed) and grows by appending a fresh
allowed cell whose recorded parent is an existing key adjacent to it. -/
inductive PTree (allowed : Finset Pos) (start : Pos) : Parents → Prop
  | base (h : start ∈ allowed) : PTree allowed start [(start, none)]
  | snoc (ps : Parents) (v u : Pos) (hps : PTree allowed start ps)
      (hu : (lookupPar ps u).isSome = true) (hv : lookupPar ps v = none)
      (hva : v ∈ allowed) (hadj : v ∈ neighborsOf u) :
      PTree allowed start (ps ++ [(v, some u)])

/-- Lookup of an existing key is unchanged by appending an entry. -/
theorem lookupPar_append_of_isSome {ps : Parents} {x : Pos}
    (h : (lookupPar ps x).isSome = true) (e : Pos × Option Pos) :
    lookupPar (ps ++ [e]) x = lookupPar ps x := by
  induction ps with
  | nil => simp [lookupPar] at h
  | cons kv rest ih =>
      by_cases hk : kv.1 = x
      · simp [lookupPar, hk]
      · simp only [lookupPar, if_neg hk] at h ⊢
        exact ih h

/-- Lookup after appending a fresh key. -/
theorem lookupPar_append_of_none {ps : Parents} {x v : Pos}
    (h : lookupPar ps x = none) (o : Option Pos) :
    lookupPar (ps ++ [(v, o)]) x = if v = x then some o else none := by
  induction ps with
  | nil => simp [lookupPar]
  | cons kv rest ih =>
      by_cases hk : kv.1 = x
      · simp [lookupPar, hk] at h
      · simp only [lookupPar, if_neg hk] at h ⊢
        exact ih h

/-- In a parent tree, the start is a key mapped to `None`. -/
theorem ptree_lookup_start {allowed : Finset Pos} {start : Pos} {ps : Parents}
    (h : PTree allowed start ps) : lookupPar ps start = some none := by
  induction h with
  | base h => simp [lookupPar]
  | snoc ps v u hps hu hv hva hadj ih =>
      rw [lookupPar_append_of_isSome (by simp [ih]) _]
      exact ih

/-- Every key of a parent tree is an allowed cell. -/
theorem ptree_key_allowed {allowed : Finset Pos} {start : Pos} {ps : Parents}
    (h : PTree allowed start ps) :
    ∀ x, (lookupPar ps x).isSome = true → x ∈ allowed := by
  induction h with
  | base h =>
      intro x hx
      by_cases hs : start = x
      · exact hs ▸ h
      · simp [lookupPar, hs] at hx
  | snoc ps v u hps hu hv hva hadj ih =>
      intro x hx
      by_cases hold : (lookupPar ps x).isSome = true
      · exact ih x hold
      · have hnone : lookupPar ps x = none := by
          cases hl : lookupPar ps x with
          | none => rfl
          | some o => rw [hl] at hold; simp at hold
        rw [lookupPar_append_of_none hnone _] at hx
        by_cases hvx : v = x
        · exact hvx ▸ hva
        · rw [if_neg hvx] at hx; simp at hx

/-- In a parent tree, a recorded parent is itself a key. -/
theorem ptree_parent_key {allowed : Finset Pos} {start : Pos} {ps : Parents}
    (h : PTree allowed start ps) :
    ∀ x u, lookupPar ps x = some (some u) →
      (lookupPar ps u).isSome = true := by
  induction h with
  | base h =>
      intro x u hx
      by_cases hs : start = x <;> simp [lookupPar, hs] at hx
  | snoc ps v u hps hu hv hva hadj ih =>
      intro x w hx
      by_cases hold : (lookupPar ps x).isSome = true
      · rw [lookupPar_append_of_isSome hold _] at hx
        have := ih x w hx
        rw [lookupPar_append_of_isSome this _]
        exact this
      · have hnone : lookupPar ps x = none := by
          cases hl : lookupPar ps x with
          | none => rfl
          | some o => rw [hl] at hold; simp at hold
        rw [lookupPar_append_of_none hnone _] at hx
        by_cases hvx : v = x
        · rw [if_pos hvx] at hx
          have hw : w = u := by simpa using hx.symm
          rw [hw, lookupPar_append_of_isSome hu _]
          exact hu
        · rw [if_neg hvx] at hx; simp at hx

/-- A cell is a `parents` key iff it appears among the recorded firsts. -/
theorem lookupPar_isSome_iff_mem {ps : Parents} {x : Pos} :
    (lookupPar ps x).isSome = true ↔ x ∈ ps.map Prod.fst := by
  induction ps with
  | nil => simp [lookupPar]
  | cons kv rest ih =>
      by_cases hk : kv.1 = x
      · simp [lookupPar, hk]
      · simp only [lookupPar, if_neg hk, List.map_cons, List.mem_cons]
        rw [ih]
        constructor
        · exact Or.inr
        · rintro (h | h)
          · exact absurd h.symm hk
          · exact h

/-- The keys of a parent tree are distinct. -/
theorem ptree_keys_nodup {allowed : Finset Pos} {start : Pos} {ps : Parents}
    (h : PTree allowed start ps) : (ps.map Prod.fst).Nodup := by
  induction h with
  | base h => simp
  | snoc ps v u hps hu hv hva hadj ih =>
      rw [List.map_append]
      rw [List.nodup_append]
      refine ⟨ih, by simp, ?_⟩
      intro a ha hb
      have hav : a = v := by simpa using hb
      subst hav
      have : (lookupPar ps a).isSome = true := lookupPar_isSome_iff_mem.mpr ha
      rw [hv] at this
      simp at this

/-- A parent tree has at most `allowed.card` entries. -/
theorem ptree_length_le {allowed : Finset Pos} {start : Pos} {ps : Parents}
    (h : PTree allowed start ps) : ps.length ≤ allowed.card := by
  have hnd := ptree_keys_nodup h
  have hsub : (ps.map Prod.fst).toFinset ⊆ allowed := by
    intro a ha
    rw [List.mem_toFinset] at ha
    exact ptree_key_allowed h a (lookupPar_isSome_iff_mem.mpr ha)
  calc ps.length = (ps.map Prod.fst).length := by simp
    _ = (ps.map Prod.fst).toFinset.card := (List.toFinset_card_of_nodup hnd).symm
    _ ≤ allowed.card := Finset.card_le_card hsub

/-- Every key of a parent tree is reachable from the start through the
allowed set. -/
theorem ptree_reachable {allowed : Finset Pos} {start : Pos} {ps : Parents}
    (h : PTree allowed start ps) :
    ∀ x, (lookupPar ps x).isSome = true → ReachableIn allowed start x := by
  induction h with
  | base hstart =>
      intro x hx
      have hxs : start = x := by
        by_cases hs : start = x
        · exact hs
        · simp [lookupPar, hs] at hx
      exact hxs ▸ Relation.ReflTransGen.refl
  | snoc ps v u hps hu hv hva hadj ih =>
      intro x hx
      by_cases hold : (lookupPar ps x).isSome = true
      · exact ih x hold
      · have hnone : lookupPar ps x = none := by
          cases hl : lookupPar ps x with
          | none => rfl
          | some o => rw [hl] at hold; simp at hold
        rw [lookupPar_append_of_none hnone _] at hx
        by_cases hvx : v = x
        · subst hvx
          exact (ih u hu).tail ⟨ptree_key_allowed hps u hu, hva, hadj⟩
        · rw [if_neg hvx] at hx; simp at hx

/-- Reconstruction only walks old keys, so appending a fresh entry does not
change it. -/
theorem buildPath_append {allowed : Finset Pos} {start : Pos} {ps : Parents}
    (h : PTree allowed start ps) {v u : Pos} :
    ∀ (fuel : Nat) (x : Pos), (lookupPar ps x).isSome = true →
      buildPath (ps ++ [(v, some u)]) fuel x = buildPath ps fuel x := by
  intro fuel
  induction fuel with
  | zero => intro x _; rfl
  | succ fuel ih =>
      intro x hx
      have heq := lookupPar_append_of_isSome hx (v, some u)
      cases hl : lookupPar ps x with
      | none => rw [hl] at hx; simp at hx
      | some o =>
          rw [hl] at heq
          cases o with
          | none => simp [buildPath, heq, hl]
          | some u' =>
              simp only [buildPath, heq, hl]
              rw [ih u' (ptree_parent_key h x u' hl)]

/-- Following parent pointers from any key, with fuel at least the table
size, yields a reversed path: it starts at the key, ends at the start,
every consecutive pair is child-parent adjacent, and every cell is
allowed. -/
theorem buildPath_spec {allowed : Finset Pos} {start : Pos} {ps : Parents}
    (h : PTree allowed start ps) :
    ∀ x, (lookupPar ps x).isSome = true →
    ∀ fuel, ps.length ≤ fuel →
      (buildPath ps fuel x).head? = some x ∧
        (buildPath ps fuel x).getLast? = some start ∧
        List.Chain' (fun a b => a ∈ neighborsOf b) (buildPath ps fuel x) ∧
        ∀ q ∈ buildPath ps fuel x, q ∈ allowed := by
  induction h with
  | base hstart =>
      intro x hx fuel hfuel
      have hxs : start = x := by
        by_cases hs : start = x
        · exact hs
        · simp [lookupPar, hs] at hx
      subst hxs
      cases fuel with
      | zero => simp at hfuel
      | succ f =>
          simp [buildPath, lookupPar, hstart]
  | snoc ps v u hps hu hv hva hadj ih =>
      intro x hx fuel hfuel
      rw [List.length_append, List.length_singleton] at hfuel
      by_cases hold : (lookupPar ps x).isSome = true
      · rw [buildPath_append hps fuel x hold]
        exact ih x hold fuel (by omega)
      · have hnone : lookupPar ps x = none := by
          cases hl : lookupPar ps x with
          | none => rfl
          | some o => rw [hl] at hold; simp at hold
        rw [lookupPar_append_of_none hnone (some u)] at hx
        by_cases hvx : v = x
        case neg => rw [if_neg hvx] at hx; simp at hx
        subst hvx
        have hlook : lookupPar (ps ++ [(v, some u)]) v = some (some u) := by
          rw [lookupPar_append_of_none hv (some u), if_pos rfl]
        cases fuel with
        | zero => omega
        | succ f =>
            simp only [buildPath, hlook]
            rw [buildPath_append hps f u hu]
            obtain ⟨hh, hl, hc, ha⟩ := ih u hu f (by omega)
            obtain ⟨l', hl'⟩ : ∃ l', buildPath ps f u = u :: l' := by
              cases hbp : buildPath ps f u with
              | nil => rw [hbp] at hh; simp at hh
              | cons a l' =>
                  rw [hbp] at hh
                  simp only [List.head?_cons, Option.some.injEq] at hh
                  exact ⟨l', by rw [hh]⟩
            rw [hl'] at hl hc ha ⊢
            refine ⟨rfl, ?_, ?_, ?_⟩
            · rw [List.getLast?_cons_cons]
              exact hl
            · rw [List.chain'_cons]
              exact ⟨hadj, hc⟩
            · intro q hq
              rcases List.mem_cons.mp hq with rfl | hq
              · exact hva
              · exact ha q hq

/-- A non-key lookup is `none`. -/
theorem lookupPar_eq_none {ps : Parents} {x : Pos}
    (h : ¬(lookupPar ps x).isSome = true) : lookupPar ps x = none := by
  cases hl : lookupPar ps x with
  | none => rfl
  | some o => rw [hl] at h; simp at h

/-- A key of `ps ++ [(v, o)]` is a key of `ps` or is `v`. -/
theorem key_of_append {ps : Parents} {x v : Pos} {o : Option Pos}
    (h : (lookupPar (ps ++ [(v, o)]) x).isSome = true) :
    (lookupPar ps x).isSome = true ∨ x = v := by
  by_cases hp : (lookupPar ps x).isSome = true
  · exact Or.inl hp
  · rw [lookupPar_append_of_none (lookupPar_eq_none hp) o] at h
    by_cases hv : v = x
    · exact Or.inr hv.symm
    · rw [if_neg hv] at h
      simp at h

/-- Specification of the inner neighbour loop `expand`: it preserves the
parent-tree shape and existing entries; every enqueued cell is a key; the
accumulator only grows; on break the goal is a key; without a break every
allowed neighbour scanned is a key, the table and the queue grow in
lockstep, and every new key was enqueued. -/
theorem expand_spec {allowed : Finset Pos} {start : Pos} (goal cur : Pos) :
    ∀ (ns : List Pos) (ps : Parents) (acc : List Pos),
      PTree allowed start ps →
      (lookupPar ps cur).isSome = true →
      (∀ n ∈ ns, n ∈ neighborsOf cur) →
      (∀ a ∈ acc, (lookupPar ps a).isSome = true) →
      PTree allowed start (expand allowed goal cur ns ps acc).1 ∧
        (∀ x, (lookupPar ps x).isSome = true →
          lookupPar (expand allowed goal cur ns ps acc).1 x = lookupPar ps x) ∧
        (∀ a ∈ (expand allowed goal cur ns ps acc).2.1,
          (lookupPar (expand allowed goal cur ns ps acc).1 a).isSome = true) ∧
        (∀ a ∈ acc, a ∈ (expand allowed goal cur ns ps acc).2.1) ∧
        ((expand allowed goal cur ns ps acc).2.2 = true →
          (lookupPar (expand allowed goal cur ns ps acc).1 goal).isSome = true) ∧
        ((expand allowed goal cur ns ps acc).2.2 = false →
          (∀ n ∈ ns, n ∈ allowed →
            (lookupPar (expand allowed goal cur ns ps acc).1 n).isSome = true) ∧
          (expand allowed goal cur ns ps acc).1.length + acc.length =
            ps.length + (expand allowed goal cur ns ps acc).2.1.length ∧
          (∀ x,
            (lookupPar (expand allowed goal cur ns ps acc).1 x).isSome = true →
            (lookupPar ps x).isSome = true ∨
              x ∈ (expand allowed goal cur ns ps acc).2.1)) := by
  intro ns
  induction ns with
  | nil =>
      intro ps acc hps hcur hn hacc
      refine ⟨hps, fun x _ => rfl, hacc, fun a ha => ha, fun hb => ?_,
        fun _ => ⟨fun m hm _ => absurd hm (List.not_mem_nil m), rfl,
          fun x hx => Or.inl hx⟩⟩
      simp [expand] at hb
  | cons n ns ih =>
      intro ps acc hps hcur hn hacc
      by_cases h1 : (lookupPar ps n).isSome = true
      · have hstep : expand allowed goal cur (n :: ns) ps acc =
            expand allowed goal cur ns ps acc := by
          simp [expand, h1]
        rw [hstep]
        obtain ⟨c1, c2, c3, c4, c5, c6⟩ :=
          ih ps acc hps hcur
            (fun m hm => hn m (List.mem_cons.mpr (Or.inr hm))) hacc
        refine ⟨c1, c2, c3, c4, c5, fun hb => ?_⟩
        obtain ⟨d1, d2, d3⟩ := c6 hb
        refine ⟨?_, d2, d3⟩
        intro m hm hma
        rcases List.mem_cons.mp hm with rfl | hm'
        · rw [c2 m h1]; exact h1
        · exact d1 m hm' hma
      · have hnone : lookupPar ps n = none := lookupPar_eq_none h1
        by_cases h2 : n ∈ allowed
        · by_cases h3 : n = goal
          · subst h3
            have hstep : expand allowed n cur (n :: ns) ps acc =
                (ps ++ [(n, some cur)], acc, true) := by
              simp [expand, h1, h2]
            rw [hstep]
            have hgk : (lookupPar (ps ++ [(n, some cur)]) n).isSome = true := by
              rw [lookupPar_append_of_none hnone, if_pos rfl]
              rfl
            exact ⟨PTree.snoc ps n cur hps hcur hnone h2
                (hn n (List.mem_cons_self n ns)),
              fun x hx => lookupPar_append_of_isSome hx _,
              fun a ha => by
                rw [lookupPar_append_of_isSome (hacc a ha) _]
                exact hacc a ha,
              fun a ha => ha,
              fun _ => hgk,
              fun hb => by simp at hb⟩
          · have hstep : expand allowed goal cur (n :: ns) ps acc =
                expand allowed goal cur ns (ps ++ [(n, some cur)])
                  (acc ++ [n]) := by
              simp [expand, h1, h2, h3]
            rw [hstep]
            have hps' : PTree allowed start (ps ++ [(n, some cur)]) :=
              PTree.snoc ps n cur hps hcur hnone h2
                (hn n (List.mem_cons_self n ns))
            have hnk : (lookupPar (ps ++ [(n, some cur)]) n).isSome = true := by
              rw [lookupPar_append_of_none hnone, if_pos rfl]
              rfl
            have hcur' :
                (lookupPar (ps ++ [(n, some cur)]) cur).isSome = true := by
              rw [lookupPar_append_of_isSome hcur]
              exact hcur
            have hacc' :
                ∀ a ∈ acc ++ [n],
                  (lookupPar (ps ++ [(n, some cur)]) a).isSome = true := by
              intro a ha
              rcases List.mem_append.mp ha with ha' | ha'
              · rw [lookupPar_append_of_isSome (hacc a ha') _]
                exact hacc a ha'
              · have : a = n := by simpa using ha'
                subst this
                exact hnk
            obtain ⟨c1, c2, c3, c4, c5, c6⟩ :=
              ih (ps ++ [(n, some cur)]) (acc ++ [n]) hps' hcur'
                (fun m hm => hn m (List.mem_cons.mpr (Or.inr hm))) hacc'
            refine ⟨c1, ?_, c3, ?_, c5, ?_⟩
            · intro x hx
              have hx' :
                  (lookupPar (ps ++ [(n, some cur)]) x).isSome = true := by
                rw [lookupPar_append_of_isSome hx]
                exact hx
              rw [c2 x hx', lookupPar_append_of_isSome hx]
            · intro a ha
              exact c4 a (List.mem_append.mpr (Or.inl ha))
            · intro hb
              obtain ⟨d1, d2, d3⟩ := c6 hb
              refine ⟨?_, ?_, ?_⟩
              · intro m hm hma
                rcases List.mem_cons.mp hm with rfl | hm'
                · rw [c2 m hnk]
                  exact hnk
                · exact d1 m hm' hma
              · simp only [List.length_append, List.length_singleton] at d2 ⊢
                omega
              · intro x hx
                rcases d3 x hx with hx' | hq
                · rcases key_of_append hx' with hpx | hxv
                  · exact Or.inl hpx
                  · subst hxv
                    exact Or.inr (c4 x (List.mem_append.mpr (Or.inr
                      (List.mem_singleton.mpr rfl))))
                · exact Or.inr hq
        · have hstep : expand allowed goal cur (n :: ns) ps acc =
              expand allowed goal cur ns ps acc := by
            simp [expand, h1, h2]
          rw [hstep]
          obtain ⟨c1, c2, c3, c4, c5, c6⟩ :=
            ih ps acc hps hcur
              (fun m hm => hn m (List.mem_cons.mpr (Or.inr hm))) hacc
          refine ⟨c1, c2, c3, c4, c5, fun hb => ?_⟩
          obtain ⟨d1, d2, d3⟩ := c6 hb
          refine ⟨?_, d2, d3⟩
          intro m hm hma
          rcases List.mem_cons.mp hm with rfl | hm'
          · exact absurd hma h2
          · exact d1 m hm' hma

/-- The loop invariant of the BFS: with every queued cell a key and every
unqueued key fully expanded, and fuel above the iteration bound, the final
table extends the current one, stays a parent tree, and either holds the
goal (break) or is closed under allowed adjacency (queue exhausted). -/
theorem bfsLoop_spec {allowed : Finset Pos} {start goal : Pos} :
    ∀ (fuel : Nat) (queue : List Pos) (ps : Parents),
      PTree allowed start ps →
      (∀ x ∈ queue, (lookupPar ps x).isSome = true) →
      (∀ x, (lookupPar ps x).isSome = true →
        x ∈ queue ∨
          ∀ v ∈ neighborsOf x, v ∈ allowed →
            (lookupPar ps v).isSome = true) →
      queue.length + (allowed.card - ps.length) < fuel →
      PTree allowed start (bfsLoop allowed goal fuel queue ps) ∧
        (∀ x, (lookupPar ps x).isSome = true →
          lookupPar (bfsLoop allowed goal fuel queue ps) x = lookupPar ps x) ∧
        ((lookupPar (bfsLoop allowed goal fuel queue ps) goal).isSome = true ∨
          ∀ x,
            (lookupPar (bfsLoop allowed goal fuel queue ps) x).isSome = true →
            ∀ v ∈ neighborsOf x, v ∈ allowed →
              (lookupPar (bfsLoop allowed goal fuel queue ps) v).isSome
                = true) := by
  intro fuel
  induction fuel with
  | zero =>
      intro queue ps _ _ _ hm
      omega
  | succ fuel ih =>
      intro queue ps hps hqueue hexp hm
      cases queue with
      | nil =>
          refine ⟨hps, fun x _ => rfl, Or.inr ?_⟩
          intro x hx v hv hva
          rcases hexp x hx with hq | hcl
          · exact absurd hq (List.not_mem_nil x)
          · exact hcl v hv hva
      | cons cur rest =>
          obtain ⟨c1, c2, c3, c4, c5, c6⟩ :=
            expand_spec goal cur (neighborsOf cur) ps []
              hps (hqueue cur (List.mem_cons_self cur rest))
              (fun m hm => hm) (fun a ha => absurd ha (List.not_mem_nil a))
          have hunfold : bfsLoop allowed goal (fuel + 1) (cur :: rest) ps =
              if (expand allowed goal cur (neighborsOf cur) ps []).2.2 then
                (expand allowed goal cur (neighborsOf cur) ps []).1
              else
                bfsLoop allowed goal fuel
                  (rest ++ (expand allowed goal cur (neighborsOf cur) ps []).2.1)
                  (expand allowed goal cur (neighborsOf cur) ps []).1 := rfl
          cases hb : (expand allowed goal cur (neighborsOf cur) ps []).2.2 with
          | true =>
              rw [hunfold, hb, if_pos rfl]
              exact ⟨c1, c2, Or.inl (c5 hb)⟩
          | false =>
              rw [hunfold, hb, if_neg Bool.false_ne_true]
              obtain ⟨d1, d2, d3⟩ := c6 hb
              have hq' : ∀ x ∈ rest ++
                  (expand allowed goal cur (neighborsOf cur) ps []).2.1,
                  (lookupPar
                    (expand allowed goal cur (neighborsOf cur) ps []).1
                    x).isSome = true := by
                intro x hx
                rcases List.mem_append.mp hx with hx' | hx'
                · have hk := hqueue x (List.mem_cons.mpr (Or.inr hx'))
                  rw [c2 x hk]
                  exact hk
                · exact c3 x hx'
              have hexp' : ∀ x,
                  (lookupPar
                    (expand allowed goal cur (neighborsOf cur) ps []).1
                    x).isSome = true →
                  x ∈ rest ++
                    (expand allowed goal cur (neighborsOf cur) ps []).2.1 ∨
                  ∀ v ∈ neighborsOf x, v ∈ allowed →
                    (lookupPar
                      (expand allowed goal cur (neighborsOf cur) ps []).1
                      v).isSome = true := by
                intro x hx
                rcases d3 x hx with hxold | hxq
                · rcases hexp x hxold with hxinq | hxcl
                  · rcases List.mem_cons.mp hxinq with rfl | hxr
                    · exact Or.inr (fun v hv hva => d1 v hv hva)
                    · exact Or.inl (List.mem_append.mpr (Or.inl hxr))
                  · refine Or.inr (fun v hv hva => ?_)
                    have hk := hxcl v hv hva
                    rw [c2 v hk]
                    exact hk
                · exact Or.inl (List.mem_append.mpr (Or.inr hxq))
              have hlen1 := ptree_length_le c1
              have hlen0 := ptree_length_le hps
              have hm' : (rest ++
                  (expand allowed goal cur (neighborsOf cur) ps []).2.1).length +
                  (allowed.card -
                    (expand allowed goal cur
                      (neighborsOf cur) ps []).1.length) < fuel := by
                simp only [List.length_append] at d2 ⊢
                simp only [List.length_cons] at hm
                simp only [List.length_nil] at d2
                omega
              obtain ⟨r1, r2, r3⟩ := ih _ _ c1 hq' hexp' hm'
              refine ⟨r1, ?_, r3⟩
              intro x hx
              rw [r2 x (by rw [c2 x hx]; exact hx), c2 x hx]

/-- A closed table reaches everything reachable from the start. -/
theorem closure_reaches {allowed : Finset Pos} {start : Pos} {ps : Parents}
    (hstartkey : (lookupPar ps start).isSome = true)
    (hclosed : ∀ x, (lookupPar ps x).isSome = true →
      ∀ v ∈ neighborsOf x, v ∈ allowed → (lookupPar ps v).isSome = true) :
    ∀ b, ReachableIn allowed start b → (lookupPar ps b).isSome = true := by
  intro b hreach
  induction hreach with
  | refl => exact hstartkey
  | tail h1 h2 ih => exact hclosed _ ih _ h2.2.2 h2.2.1

/-- A non-trivial reachability chain has both endpoints allowed. -/
theorem reachable_ends_allowed {allowed : Finset Pos} {a b : Pos}
    (h : ReachableIn allowed a b) (hne : a ≠ b) :
    a ∈ allowed ∧ b ∈ allowed := by
  constructor
  · rcases h.cases_head with rfl | ⟨c, hstep, -⟩
    · exact absurd rfl hne
    · exact hstep.1
  · rcases h.cases_tail with rfl | ⟨c, -, hstep⟩
    · exact absurd rfl hne
    · exact hstep.2.1

end Rescuer

/-- **C4** (amended).  `_find_path` returns `[start]` unconditionally when
`start = goal` (even when that cell is not in `visited \ obstacles`); for
`start ≠ goal` it returns `[]` exactly when the goal is not reachable from
the start through `visited \ obstacles` by 8-directional steps, and a
non-empty result is a path from `start` to `goal` whose consecutive
positions are 8-adjacent and whose every position lies in
`visited \ obstacles`. -/
theorem rescuer_find_path_spec
    (visited obstacles : Finset Pos) (start goal : Pos) :
    (start = goal →
      Rescuer.find_path visited obstacles start goal = [start]) ∧
      (start ≠ goal →
        (Rescuer.find_path visited obstacles start goal = [] ↔
          ¬Rescuer.ReachableIn (visited \ obstacles) start goal) ∧
        (Rescuer.find_path visited obstacles start goal ≠ [] →
          (Rescuer.find_path visited obstacles start goal).head? =
              some start ∧
            (Rescuer.find_path visited obstacles start goal).getLast? =
              some goal ∧
            List.Chain' (fun a b => b ∈ Rescuer.neighborsOf a)
              (Rescuer.find_path visited obstacles start goal) ∧
            ∀ q ∈ Rescuer.find_path visited obstacles start goal,
              q ∈ visited \ obstacles)) := by
  constructor
  · intro h
    simp [Rescuer.find_path, h]
  · intro hne
    have hunfold : Rescuer.find_path visited obstacles start goal =
        if start ∉ visited \ obstacles ∨ goal ∉ visited \ obstacles then []
        else
          let ps := Rescuer.bfsLoop (visited \ obstacles) goal
            ((visited \ obstacles).card + 1) [start] [(start, none)]
          if (Rescuer.lookupPar ps goal).isSome then
            (Rescuer.buildPath ps ps.length goal).reverse
          else [] := by
      simp [Rescuer.find_path, hne]
    by_cases hmem : start ∉ visited \ obstacles ∨ goal ∉ visited \ obstacles
    · rw [hunfold, if_pos hmem]
      refine ⟨?_, fun h => absurd rfl h⟩
      simp only [true_iff]
      intro hreach
      obtain ⟨hs, hg⟩ := Rescuer.reachable_ends_allowed hreach hne
      rcases hmem with hm | hm
      · exact hm hs
      · exact hm hg
    · rw [hunfold, if_neg hmem]
      push_neg at hmem
      obtain ⟨hs, hg⟩ := hmem
      have hps0 : Rescuer.PTree (visited \ obstacles) start [(start, none)] :=
        Rescuer.PTree.base hs
      have hstartkey :
          (Rescuer.lookupPar [(start, none)] start).isSome = true := by
        simp [Rescuer.lookupPar]
      have hcard : 0 < (visited \ obstacles).card :=
        Finset.card_pos.mpr ⟨start, hs⟩
      obtain ⟨t1, t2, t3⟩ := Rescuer.bfsLoop_spec
        ((visited \ obstacles).card + 1) [start] [(start, none)] hps0
        (by
          intro x hx
          have : x = start := by simpa using hx
          subst this
          exact hstartkey)
        (by
          intro x hx
          left
          by_cases hsx : start = x
          · simp [hsx]
          · simp [Rescuer.lookupPar, hsx] at hx)
        (by
          simp only [List.length_cons, List.length_nil, List.length_singleton]
          omega)
      set res := Rescuer.bfsLoop (visited \ obstacles) goal
        ((visited \ obstacles).card + 1) [start] [(start, none)] with hres
      have hstartres : (Rescuer.lookupPar res start).isSome = true := by
        rw [t2 start hstartkey]
        exact hstartkey
      by_cases hk : (Rescuer.lookupPar res goal).isSome = true
      · rw [if_pos hk]
        obtain ⟨hh, hl, hc, ha⟩ :=
          Rescuer.buildPath_spec t1 goal hk res.length le_rfl
        have hrev_ne : (Rescuer.buildPath res res.length goal).reverse ≠ [] := by
          intro hnil
          have : Rescuer.buildPath res res.length goal = [] := by
            simpa using congrArg List.reverse hnil
          rw [this] at hh
          simp at hh
        refine ⟨?_, ?_⟩
        · constructor
          · intro h
            exact absurd h hrev_ne
          · intro hreach
            exact absurd (Rescuer.ptree_reachable t1 goal hk) hreach
        · intro _
          refine ⟨?_, ?_, ?_, ?_⟩
          · rw [List.head?_reverse]
            exact hl
          · rw [List.getLast?_reverse]
            exact hh
          · rw [List.chain'_reverse]
            exact hc
          · intro q hq
            exact ha q (List.mem_reverse.mp hq)
      · rw [if_neg hk]
        refine ⟨?_, fun h => absurd rfl h⟩
        simp only [true_iff]
        intro hreach
        rcases t3 with hk' | hclosed
        · exact hk hk'
        · exact hk (Rescuer.closure_reaches hstartres hclosed goal hreach)

/-- **C4 counterexample.**  With `start = goal = (5, 5)` and an empty map,
`(5, 5)` is not in `visited \ obstacles` — by the spec's own definition the
goal is unreachable — yet `_find_path` returns the non-empty `[(5, 5)]`, a
path whose position is outside `visited \ obstacles`. -/
theorem find_path_start_eq_goal_outside_allowed :
    Rescuer.find_path ∅ ∅ (5, 5) (5, 5) = [((5 : Int), (5 : Int))] ∧
      ((5 : Int), (5 : Int)) ∉ ((∅ : Finset Pos) \ ∅) ∧
      [((5 : Int), (5 : Int))] ≠ ([] : List Pos) :=
  ⟨rfl, by decide, by decide⟩
